import Mathlib

/-!
# trdl: release pipeline and tasks manager

A shallow embedding of

* `release.go`: `generateServiceDockerfile`, `readTarFromImageBuildResponse`
  (the framed artifact extractor) and the base64 step of
  `processFromImageBuildResponse`;
* `pkg/tasks_manager/actions.go`: `RunTask`, `AddOptionalTask`, `AddTask`,
  `doTaskWrap`, `queueTask`.

Go byte slices and strings are lists of byte values (`Nat`, each below 256).
-/

set_option maxRecDepth 100000

namespace Trdl

/-! ## Bytes and string constants -/

/-- A Go `[]byte` / `string`: the list of its byte values. -/
abbrev Bytes := List Nat

/-- The bytes of an ASCII string literal of the source. -/
def lit (s : String) : Bytes := s.toList.map Char.toNat

/-- Constant `containerSourceDir`. -/
def containerSourceDir : Bytes := lit "/git"

/-- Constant `containerArtifactsDir`. -/
def containerArtifactsDir : Bytes := lit "/result"

/-- Constant `serviceDirInContextTar`. -/
def serviceDirInContextTar : Bytes := lit ".trdl"

/-- Variable `artifactsTarStartReadCode` (the start sentinel). -/
def artifactsTarStartReadCode : Bytes :=
  lit "1EA01F53E0277546E1B17267F29A60B3CD4DC12744C2FA2BF0897065DC3749F3"

/-- Variable `artifactsTarStopReadCode` (the stop sentinel). -/
def artifactsTarStopReadCode : Bytes :=
  lit "A2F00DB0DEE3540E246B75B872D64773DF67BC51C5D36D50FA6978E2FFDA7D43"

/-! ## base64 (Go standard library, `encoding/base64`, `StdEncoding`) -/

/-- The alphabet of `base64.StdEncoding`. -/
def encodeStd : Bytes :=
  lit "ABCDEFGHIJKLMNOPQRSTUVWXYZabcdefghijklmnopqrstuvwxyz0123456789+/"

/-- The character of a 6-bit value. -/
def b64Char (v : Nat) : Nat := encodeStd.getD v 0

/-- The padding character `=`. -/
def b64Pad : Nat := 61

/-- The function `base64.StdEncoding.EncodeToString`: three bytes become four
characters, a final group of one or two bytes is padded with `=`. -/
def base64Encode : Bytes → Bytes
  | [] => []
  | [a] => [b64Char (a / 4), b64Char (a % 4 * 16), b64Pad, b64Pad]
  | [a, b] => [b64Char (a / 4), b64Char (a % 4 * 16 + b / 16), b64Char (b % 16 * 4), b64Pad]
  | a :: b :: c :: rest =>
    b64Char (a / 4) :: b64Char (a % 4 * 16 + b / 16) :: b64Char (b % 16 * 4 + c / 64)
      :: b64Char (c % 64) :: base64Encode rest

/-- The 6-bit value of a base64 character, `none` for a byte outside the alphabet
(the decode map of `StdEncoding`). -/
def b64Val (c : Nat) : Option Nat :=
  if 65 ≤ c ∧ c ≤ 90 then some (c - 65)
  else if 97 ≤ c ∧ c ≤ 122 then some (c - 97 + 26)
  else if 48 ≤ c ∧ c ≤ 57 then some (c - 48 + 52)
  else if c = 43 then some 62
  else if c = 47 then some 63
  else none

/-- Decoding of the last group of four characters, which may be padded. -/
def base64DecodeLast (c0 c1 c2 c3 : Nat) : Option Bytes :=
  match b64Val c0, b64Val c1 with
  | some v0, some v1 =>
    if c2 = b64Pad ∧ c3 = b64Pad then
      if v1 % 16 = 0 then some [v0 * 4 + v1 / 16] else none
    else
      match b64Val c2 with
      | some v2 =>
        if c3 = b64Pad then
          if v2 % 4 = 0 then some [v0 * 4 + v1 / 16, v1 % 16 * 16 + v2 / 4] else none
        else
          match b64Val c3 with
          | some v3 => some [v0 * 4 + v1 / 16, v1 % 16 * 16 + v2 / 4, v2 % 4 * 64 + v3]
          | none => none
      | none => none
  | _, _ => none

/-- Decoding of a character stream that has no line breaks left: groups of four
characters, padding only in the last group. -/
def base64DecodeGroups : Bytes → Option Bytes
  | [] => some []
  | c0 :: c1 :: c2 :: c3 :: rest =>
    if rest = [] then base64DecodeLast c0 c1 c2 c3
    else
      match b64Val c0, b64Val c1, b64Val c2, b64Val c3, base64DecodeGroups rest with
      | some v0, some v1, some v2, some v3, some out =>
        some ((v0 * 4 + v1 / 16) :: (v1 % 16 * 16 + v2 / 4) :: (v2 % 4 * 64 + v3) :: out)
      | _, _, _, _, _ => none
  | _ => none

/-- What `io.Copy` reads from `base64.NewDecoder(base64.StdEncoding, r)`: the
decoder drops `\r` and `\n` and decodes the rest; `none` is a corrupt input. -/
def base64Decode (s : Bytes) : Option Bytes :=
  base64DecodeGroups (s.filter fun c => c != 10 && c != 13)

/-! ## `readTarFromImageBuildResponse` -/

/-- The four values of `currentState`. -/
inductive ReadState where
  | checkingStartCode
  | processingStartCode
  | processingDataAndCheckingStopCode
  | processingStopCode
  deriving DecidableEq, Repr

/-- An error value returned by the extractor. -/
inductive ReadError where
  /-- The error of `dec.Decode` other than `io.EOF`, wrapped. -/
  | decode (msg : Bytes)
  /-- The field `jm.Error` of a message. -/
  | daemon (msg : Bytes)
  /-- The error of `writer.Write`. -/
  | write
  /-- An index out of range (a Go run-time panic). -/
  | indexOutOfRange
  deriving DecidableEq, Repr

/-- The fields of `jsonmessage.JSONMessage` that the extractor reads. -/
structure JSONMessage where
  Stream : Bytes
  Error : Option Bytes
  deriving DecidableEq, Repr

/-- One `dec.Decode` call on the response body: a message, or a decoding error.
The end of the list is `io.EOF`. -/
inductive Decoded where
  | message (jm : JSONMessage)
  | malformed (err : Bytes)
  deriving DecidableEq, Repr

/-- An `io.Writer`: the bytes written so far, and the number of further bytes it
accepts before a `Write` fails (`none`: it never fails). -/
structure Writer where
  written : Bytes
  room : Option Nat
  deriving DecidableEq, Repr

/-- The call `writer.Write(p)`: all of `p` is written, or only the part the
writer still accepts, with an error. -/
def Writer.Write (w : Writer) (p : Bytes) : Writer × Bool :=
  match w.room with
  | none => ({ w with written := w.written ++ p }, true)
  | some r =>
    if p.length ≤ r then ({ written := w.written ++ p, room := some (r - p.length) }, true)
    else ({ written := w.written ++ p.take r, room := some 0 }, false)

/-- The local variables of `readTarFromImageBuildResponse`. -/
structure ReadVars where
  currentState : ReadState
  codeCursor : Nat
  bufferedData : Bytes
  deriving DecidableEq, Repr

/-- The variables at function entry. -/
def ReadVars.init : ReadVars :=
  { currentState := .checkingStartCode, codeCursor := 0, bufferedData := [] }

/-- The effect of one pass of the byte loop: go on with the next byte, or return. -/
inductive Flow where
  | next (v : ReadVars) (w : Writer)
  | ret (err : Option ReadError) (w : Writer)
  deriving DecidableEq, Repr

/-- The body of `for _, b := range []byte(msg)`: the `switch currentState`. -/
def byteStep (v : ReadVars) (w : Writer) (b : Nat) : Flow :=
  match v.currentState with
  | .checkingStartCode =>
    match artifactsTarStartReadCode[0]? with
    | none => .ret (some .indexOutOfRange) w
    | some c =>
      if b = c then
        .next { v with currentState := .processingStartCode, codeCursor := v.codeCursor + 1 } w
      else .next v w
  | .processingStartCode =>
    match artifactsTarStartReadCode[v.codeCursor]? with
    | none => .ret (some .indexOutOfRange) w
    | some c =>
      if b = c then
        if artifactsTarStartReadCode.length > v.codeCursor + 1 then
          .next { v with codeCursor := v.codeCursor + 1 } w
        else
          .next { v with currentState := .processingDataAndCheckingStopCode, codeCursor := 0 } w
      else
        .next { v with currentState := .checkingStartCode, codeCursor := 0 } w
  | .processingDataAndCheckingStopCode =>
    let bufferedData := v.bufferedData ++ [b]
    match artifactsTarStopReadCode[0]? with
    | none => .ret (some .indexOutOfRange) w
    | some c =>
      if b = c then
        .next { currentState := .processingStopCode, codeCursor := v.codeCursor + 1,
                bufferedData := bufferedData } w
      else
        match w.Write bufferedData with
        | (w', false) => .ret (some .write) w'
        | (w', true) => .next { v with bufferedData := [] } w'
  | .processingStopCode =>
    let bufferedData := v.bufferedData ++ [b]
    match artifactsTarStopReadCode[v.codeCursor]? with
    | none => .ret (some .indexOutOfRange) w
    | some c =>
      if b = c then
        if artifactsTarStopReadCode.length > v.codeCursor + 1 then
          .next { v with codeCursor := v.codeCursor + 1, bufferedData := bufferedData } w
        else
          .ret none w
      else
        .next { currentState := .processingDataAndCheckingStopCode, codeCursor := 0,
                bufferedData := bufferedData } w

/-- The loop `for _, b := range []byte(msg)`. -/
def byteLoop (v : ReadVars) (w : Writer) : Bytes → Flow
  | [] => .next v w
  | b :: rest =>
    match byteStep v w b with
    | .next v' w' => byteLoop v' w' rest
    | .ret e w' => .ret e w'

/-- The outer `for` loop of `readTarFromImageBuildResponse`, from given values
of the local variables: the returned error (`none` is `nil`) and the writer. -/
def readLoop (v : ReadVars) (w : Writer) : List Decoded → Option ReadError × Writer
  | [] => (none, w)
  | .malformed err :: _ => (some (.decode err), w)
  | .message jm :: rest =>
    match jm.Error with
    | some e => (some (.daemon e), w)
    | none =>
      if jm.Stream ≠ [] then
        match byteLoop v w jm.Stream with
        | .next v' w' => readLoop v' w' rest
        | .ret e w' => (e, w')
      else readLoop v w rest

/-- The function `readTarFromImageBuildResponse(response, writer)`; `body` is
what the JSON decoder yields from `response.Body`. -/
def readTarFromImageBuildResponse (body : List Decoded) (writer : Writer) :
    Option ReadError × Writer :=
  readLoop ReadVars.init writer body

/-- A writer that never fails, with nothing written yet (the fresh pipe of
`processFromImageBuildResponse`). -/
def Writer.pipe : Writer := { written := [], room := none }

/-- A message that carries only a `Stream` text. -/
def streamMsg (s : Bytes) : Decoded := .message { Stream := s, Error := none }

/-- The concatenated `Stream` bytes of a response body. -/
def streamBytes : List Decoded → Bytes
  | [] => []
  | .message jm :: rest => jm.Stream ++ streamBytes rest
  | .malformed _ :: rest => streamBytes rest

/-- The item is a message without `Error`. -/
def Decoded.isStream : Decoded → Bool
  | .message jm => jm.Error.isNone
  | .malformed _ => false

/-- Every item of the body is a message without `Error`. -/
def onlyStream (body : List Decoded) : Prop :=
  ∀ d ∈ body, d.isStream = true

instance (body : List Decoded) : Decidable (onlyStream body) := by
  unfold onlyStream
  infer_instance

/-! ## `generateServiceDockerfile` -/

/-- The closure `addLineFunc`: `data = append(data, []byte(line+"\n")...)`. -/
def addLineFunc (data : Bytes) (line : Bytes) : Bytes := data ++ (line ++ [10])

/-- The function `strings.Join`. -/
def stringsJoin : List Bytes → Bytes → Bytes
  | [], _ => []
  | [a], _ => a
  | a :: rest, sep => a ++ sep ++ stringsJoin rest sep

/-- The function `generateServiceDockerfile(fromImage, runCommands)`. -/
def generateServiceDockerfile (fromImage : Bytes) (runCommands : List Bytes) : Bytes :=
  let data : Bytes := []
  let data := addLineFunc data (lit "FROM " ++ fromImage)
  let data := addLineFunc data (lit "COPY . " ++ containerSourceDir)
  let data := addLineFunc data (lit "WORKDIR " ++ containerSourceDir)
  let data := addLineFunc data (lit "RUN " ++ (lit "rm -rf " ++ serviceDirInContextTar))
  let data := addLineFunc data (lit "RUN " ++ (lit "mkdir " ++ containerArtifactsDir))
  let data := runCommands.foldl (fun data command => addLineFunc data (lit "RUN " ++ command)) data
  let serviceRunCommands : List Bytes := [
    lit "echo -n $(echo -n '" ++ base64Encode artifactsTarStartReadCode ++ lit "' | base64 -d)",
    lit "tar c -C " ++ containerArtifactsDir ++ lit " . | base64",
    lit "echo -n $(echo -n '" ++ base64Encode artifactsTarStopReadCode ++ lit "' | base64 -d)"
  ]
  addLineFunc data (lit "RUN " ++ stringsJoin serviceRunCommands (lit " && "))

/-! ## Tasks manager (`pkg/tasks_manager/actions.go`) -/

/-- The values of the field `Status` of a task. -/
inductive TaskStatus where
  | queued
  | running
  | succeeded
  | failed
  | canceled
  deriving DecidableEq, Repr

/-- Constant `taskStatusQueued`. -/
def taskStatusQueued : TaskStatus := .queued

/-- A task record. -/
structure Task where
  UUID : String
  Status : TaskStatus
  Reason : String
  deriving DecidableEq, Repr

/-- The tasks manager configuration record. -/
structure Configuration where
  TaskTimeout : String
  deriving DecidableEq, Repr

/-- A `logical.Storage`: the task records under `storageKeyPrefixTask` (key and
record, in `List` order), the configuration entry, and which operations fail. -/
structure Storage where
  tasks : List (String × Task)
  configuration : Option Configuration
  failList : Bool
  failGetTask : Bool
  failPut : Bool
  failGetConfiguration : Bool
  deriving DecidableEq, Repr

/-- The errors returned by the manager's actions. -/
inductive TaskError where
  /-- The package variable `QueueBusyError`. -/
  | queueBusy
  /-- The error "unable to get tasks manager configuration: ...". -/
  | getConfiguration
  /-- The error "unable to parse task timeout duration ...". -/
  | parseTaskTimeout (value : String)
  /-- The error "unable to get tasks from storage: ...". -/
  | listTasks
  /-- The error "unable to get task ... from storage: ...". -/
  | getTask (uuid : String)
  /-- The error "unable to put task ... into storage: ...". -/
  | putTask (uuid : String)
  /-- A nil dereference (a Go run-time panic). -/
  | nilDereference
  deriving DecidableEq, Repr

/-- The package variable `QueueBusyError`. -/
def QueueBusyError : TaskError := .queueBusy

/-- What the actions take from outside the package: `time.ParseDuration` and the
constant `defaultTaskTimeoutDuration`. -/
structure Env where
  parseDuration : String → Option Nat
  defaultTaskTimeoutDuration : Nat

/-- The closure `workerTaskFunc` built by `doTaskWrap`: the task function it
wraps (an identifier) and the timeout it binds. -/
structure Action where
  taskFunc : Nat
  taskTimeoutDuration : Nat
  deriving DecidableEq, Repr

/-- A `worker.Task` sent over the queue channel (its `Context` left out). -/
structure WorkerTask where
  UUID : String
  Action : Action
  deriving DecidableEq, Repr

/-- The fields of `Manager` the actions use: the storage handle (`none` is
`nil`), and the buffered channel `taskChan` with its capacity. -/
structure Manager where
  Storage : Option Nat
  taskChan : List WorkerTask
  taskChanSize : Nat
  deriving DecidableEq, Repr

/-- The state an action runs in: the storages by handle, and the manager. -/
structure World where
  storage : Nat → Storage
  m : Manager

/-- How a call ends: it returns, or it waits forever on the send to a full
channel (no worker is receiving). -/
inductive Outcome (α : Type) where
  | returned (val : α) (w : World)
  | blocked (w : World)

/-- The returned value, if the call returns. -/
def Outcome.val? {α : Type} : Outcome α → Option α
  | .returned val _ => some val
  | .blocked _ => none

/-- The state the call leaves. -/
def Outcome.world {α : Type} : Outcome α → World
  | .returned _ w => w
  | .blocked w => w

/-- The call `storage.List(ctx, storageKeyPrefixTask)`; `none` is an error. -/
def Storage.List (s : Storage) : Option (List String) :=
  if s.failList then none else some (s.tasks.map Prod.fst)

/-- Modelled from the spec: `getTaskFromStorage(ctx, storage, uuid)`, absent from
the sources; it is the typed `get` of the task store, by uuid as `RunTask` calls
it; `none` is an error and `some none` a record that does not exist. -/
def getTaskFromStorage (s : Storage) (uuid : String) : Option (Option Task) :=
  if s.failGetTask then none else some (s.tasks.lookup uuid)

/-- Replace the record under `key`, or append it when the key is new. -/
def putEntry (key : String) (task : Task) : List (String × Task) → List (String × Task)
  | [] => [(key, task)]
  | (k, t) :: rest => if k = key then (key, task) :: rest else (k, t) :: putEntry key task rest

/-- Modelled from the spec: `putTaskIntoStorage(ctx, storage, task)`, absent from
the sources; it is the typed `put` of the task store, under the uuid of the task
as `queueTask` calls it; `none` is an error. -/
def putTaskIntoStorage (s : Storage) (task : Task) : Option Storage :=
  if s.failPut then none else some { s with tasks := putEntry task.UUID task s.tasks }

/-- Modelled from the spec: `newTask()`, absent from the sources; it creates a
fresh task, `Queued`, with a new uuid. The uuid its generator yields is the
argument. -/
def newTask (uuid : String) : Task :=
  { UUID := uuid, Status := taskStatusQueued, Reason := "" }

/-- Modelled from the spec: `getConfiguration(ctx, storage)`, absent from the
sources; it loads the singleton configuration record, `none` is an error and
`some none` a configuration that was never stored. -/
def getConfiguration (s : Storage) : Option (Option Configuration) :=
  if s.failGetConfiguration then none else some s.configuration

/-- The method `Manager.queueTask`; `uuid` is the uuid that `newTask` draws. -/
def Manager.queueTask (w : World) (workerTaskFunc : Action) (uuid : String) :
    Outcome (String × Option TaskError) :=
  let task := newTask uuid
  match w.m.Storage with
  | none => .returned ("", some .nilDereference) w
  | some h =>
    match putTaskIntoStorage (w.storage h) task with
    | none => .returned ("", some (.putTask task.UUID)) w
    | some s =>
      let w1 : World := { w with storage := Function.update w.storage h s }
      if w1.m.taskChan.length < w1.m.taskChanSize then
        .returned (task.UUID, none)
          { w1 with m := { w1.m with
              taskChan := w1.m.taskChan ++ [{ UUID := task.UUID, Action := workerTaskFunc }] } }
      else .blocked w1

/-- The method `Manager.doTaskWrap`. The closure `f` returns, next to its error,
the value it leaves in the captured variable `taskUUID` (empty before). -/
def Manager.doTaskWrap (env : Env) (w : World) (reqStorage : Nat) (taskFunc : Nat)
    (f : World → Action → Outcome (String × Option TaskError)) :
    Outcome (String × Option TaskError) :=
  let w1 : World :=
    match w.m.Storage with
    | none => { w with m := { w.m with Storage := some reqStorage } }
    | some _ => w
  match getConfiguration (w1.storage reqStorage) with
  | none => .returned ("", some .getConfiguration) w1
  | some config =>
    let parsed : Option Nat :=
      match config with
      | some c => if c.TaskTimeout ≠ "" then env.parseDuration c.TaskTimeout
                  else some env.defaultTaskTimeoutDuration
      | none => some env.defaultTaskTimeoutDuration
    match parsed with
    | none => .returned ("", some (.parseTaskTimeout ((config.map (·.TaskTimeout)).getD ""))) w1
    | some taskTimeoutDuration =>
      f w1 { taskFunc := taskFunc, taskTimeoutDuration := taskTimeoutDuration }

/-- The loop labelled `loop` in `RunTask`: the value of `busy` after it, or the
error of reading a task. -/
def busyLoop (s : Storage) : List String → Except TaskError Bool
  | [] => .ok false
  | uuid :: rest =>
    match getTaskFromStorage s uuid with
    | none => .error (.getTask uuid)
    | some none => .error .nilDereference
    | some (some task) =>
      if task.Status = taskStatusQueued then .ok true else busyLoop s rest

/-- The method `Manager.RunTask`. -/
def Manager.RunTask (env : Env) (w : World) (reqStorage : Nat) (taskFunc : Nat)
    (uuid : String) : Outcome (String × Option TaskError) :=
  Manager.doTaskWrap env w reqStorage taskFunc fun w newTaskFunc =>
    match (w.storage reqStorage).List with
    | none => .returned ("", some .listTasks) w
    | some taskUUIDs =>
      match busyLoop (w.storage reqStorage) taskUUIDs with
      | .error err => .returned ("", some err) w
      | .ok busy =>
        if busy then .returned ("", some QueueBusyError) w
        else Manager.queueTask w newTaskFunc uuid

/-- The method `Manager.AddOptionalTask`. -/
def Manager.AddOptionalTask (env : Env) (w : World) (reqStorage : Nat) (taskFunc : Nat)
    (uuid : String) : Outcome (String × Bool × Option TaskError) :=
  match Manager.RunTask env w reqStorage taskFunc uuid with
  | .returned (taskUUID, some err) w1 =>
    if err = QueueBusyError then .returned (taskUUID, false, none) w1
    else .returned ("", false, some err) w1
  | .returned (taskUUID, none) w1 => .returned (taskUUID, true, none) w1
  | .blocked w1 => .blocked w1

/-- The method `Manager.AddTask`. -/
def Manager.AddTask (env : Env) (w : World) (reqStorage : Nat) (taskFunc : Nat)
    (uuid : String) : Outcome (String × Option TaskError) :=
  Manager.doTaskWrap env w reqStorage taskFunc fun w newTaskFunc =>
    Manager.queueTask w newTaskFunc uuid

/-- A call of one of the admission operations, with the uuid `newTask` draws. -/
inductive Call where
  | RunTask (reqStorage : Nat) (taskFunc : Nat) (uuid : String)
  | AddTask (reqStorage : Nat) (taskFunc : Nat) (uuid : String)
  | AddOptionalTask (reqStorage : Nat) (taskFunc : Nat) (uuid : String)
  deriving DecidableEq, Repr

/-- The state after one call, and whether the call returned. -/
def Call.run (env : Env) (w : World) : Call → World × Bool
  | .RunTask s f u =>
    match Manager.RunTask env w s f u with
    | .returned _ w1 => (w1, true)
    | .blocked w1 => (w1, false)
  | .AddTask s f u =>
    match Manager.AddTask env w s f u with
    | .returned _ w1 => (w1, true)
    | .blocked w1 => (w1, false)
  | .AddOptionalTask s f u =>
    match Manager.AddOptionalTask env w s f u with
    | .returned _ w1 => (w1, true)
    | .blocked w1 => (w1, false)

/-- The state after a sequence of calls made one after the other, no worker
receiving from the channel; a call that blocks keeps the lock, so no later call
runs. -/
def runCalls (env : Env) (w : World) : List Call → World
  | [] => w
  | c :: rest =>
    match c.run env w with
    | (w1, true) => runCalls env w1 rest
    | (w1, false) => w1

/-- Successive `AddTask` calls on one storage, one per uuid drawn: the values
returned, in call order, and the state left; `none` when a call blocks. -/
def addTasks (env : Env) (w : World) (reqStorage : Nat) (taskFunc : Nat) :
    List String → Option (List (String × Option TaskError) × World)
  | [] => some ([], w)
  | u :: rest =>
    match Manager.AddTask env w reqStorage taskFunc u with
    | .returned val w1 =>
      match addTasks env w1 reqStorage taskFunc rest with
      | some (vals, w2) => some (val :: vals, w2)
      | none => none
    | .blocked _ => none

/-- The record stored under a uuid, read past the failure switches. -/
def Storage.record (s : Storage) (uuid : String) : Option Task := s.tasks.lookup uuid

/-- A storage on which every operation succeeds. -/
def Storage.healthy (s : Storage) : Prop :=
  s.failList = false ∧ s.failGetTask = false ∧ s.failPut = false ∧
    s.failGetConfiguration = false

/-- The configuration of the storage loads: the timeout is unset or parses. -/
def Storage.configLoads (env : Env) (s : Storage) : Prop :=
  ∀ c, s.configuration = some c → c.TaskTimeout ≠ "" →
    (env.parseDuration c.TaskTimeout).isSome

/-- An empty storage on which every operation succeeds (`logical.InmemStorage`). -/
def Storage.inmem : Storage :=
  { tasks := [], configuration := none, failList := false, failGetTask := false,
    failPut := false, failGetConfiguration := false }

/-- The manager of `initManagerWithoutWorker`: no storage yet, an empty channel. -/
def initManagerWithoutWorker (taskChanSize : Nat) : Manager :=
  { Storage := none, taskChan := [], taskChanSize := taskChanSize }

/-- An environment for examples: no duration parses, ten minutes by default. -/
def Env.sample : Env :=
  { parseDuration := fun _ => none, defaultTaskTimeoutDuration := 600000000000 }

/-- The storage handle the manager works with once `doTaskWrap` has run. -/
def World.target (w : World) (reqStorage : Nat) : Nat := w.m.Storage.getD reqStorage

/-- The state after the first lines of `doTaskWrap`: the handle is remembered. -/
def World.init (w : World) (reqStorage : Nat) : World :=
  { w with m := { w.m with Storage := some (w.target reqStorage) } }

/-- The timeout `doTaskWrap` binds when the configuration loads. -/
def taskTimeout (env : Env) (s : Storage) : Nat :=
  match s.configuration with
  | some c =>
    if c.TaskTimeout ≠ "" then (env.parseDuration c.TaskTimeout).getD 0
    else env.defaultTaskTimeoutDuration
  | none => env.defaultTaskTimeoutDuration

/-- The state after `putTaskIntoStorage` has stored `task` in storage `h`. -/
def World.put (w : World) (h : Nat) (task : Task) : World :=
  let s : Storage := w.storage h
  let s1 : Storage := { s with tasks := putEntry task.UUID task s.tasks }
  { w with storage := Function.update w.storage h s1 }

/-- The state after the send of `item` on the channel. -/
def World.send (w : World) (item : WorkerTask) : World :=
  { w with m := { w.m with taskChan := w.m.taskChan ++ [item] } }

/-- No task record of the storage is `Queued` or `Running`. -/
def Storage.idle (s : Storage) : Prop :=
  ∀ k t, s.record k = some t → t.Status ≠ .queued ∧ t.Status ≠ .running

/-- Some task record of the storage is `Queued`. -/
def Storage.hasQueued (s : Storage) : Prop :=
  ∃ k t, s.record k = some t ∧ t.Status = .queued

/-- At most one task record of the storage is `Queued`. -/
def Storage.atMostOneQueued (s : Storage) : Prop :=
  ∀ k1 k2 t1 t2, s.record k1 = some t1 → s.record k2 = some t2 →
    t1.Status = .queued → t2.Status = .queued → k1 = k2

/-- The call is a `RunTask` or an `AddOptionalTask` that passes the storage `st`. -/
def Call.checksBusyOn (st : Nat) : Call → Prop
  | .RunTask s _ _ => s = st
  | .AddTask _ _ _ => False
  | .AddOptionalTask s _ _ => s = st

/-- An empty world: every storage is an empty `logical.InmemStorage`, the
manager is fresh, with a channel of capacity `taskChanSize`. -/
def World.fresh (taskChanSize : Nat) : World :=
  { storage := fun _ => Storage.inmem, m := initManagerWithoutWorker taskChanSize }

/-- A world with a `Running` record `r` in storage 0, the manager's handle
already set to that storage (the start of scenario S2). -/
def World.withRunning : World :=
  { storage := fun _ =>
      { Storage.inmem with tasks := [("r", { UUID := "r", Status := .running, Reason := "" })] },
    m := { initManagerWithoutWorker 2 with Storage := some 0 } }

/-- A world with a `Queued` record `q` and a `Running` record `r` left in
storage 0 by a previous run, the manager fresh (the start of scenario S3). -/
def World.withStale : World :=
  { storage := fun _ =>
      { Storage.inmem with
        tasks := [("q", { UUID := "q", Status := .queued, Reason := "" }),
                  ("r", { UUID := "r", Status := .running, Reason := "" })] },
    m := initManagerWithoutWorker 2 }

/-- The 48 bytes whose base64 text is the stop sentinel. -/
def stopCodePayload : Bytes :=
  [3, 97, 116, 208, 48, 116, 12, 65, 55, 231, 141, 4, 219, 142, 129, 239, 144, 124, 239, 96,
   250, 227, 190, 247, 12, 94, 187, 4, 46, 117, 11, 144, 247, 232, 62, 116, 20, 14, 189, 239,
   193, 54, 20, 80, 192, 236, 62, 55]

/-! ## Invariants of the extractor's variables -/

/-- The variables right after the start sentinel has been matched. -/
def ReadVars.data : ReadVars :=
  { currentState := .processingDataAndCheckingStopCode, codeCursor := 0, bufferedData := [] }

/-- The cursor stays inside the sentinels, and it is zero outside a match. -/
def CursorInv (v : ReadVars) : Prop :=
  v.codeCursor < 64 ∧
    (v.currentState = .checkingStartCode ∨
      v.currentState = .processingDataAndCheckingStopCode → v.codeCursor = 0)

/-- While the start sentinel is searched, after the bytes `done`: nothing is
buffered, and a match in progress has consumed the sentinel's first
`codeCursor` bytes last. -/
def StartInv (v : ReadVars) (done : Bytes) : Prop :=
  v.bufferedData = [] ∧
    ((v.currentState = .checkingStartCode ∧ v.codeCursor = 0) ∨
      (v.currentState = .processingStartCode ∧ 0 < v.codeCursor ∧ v.codeCursor < 64 ∧
        artifactsTarStartReadCode.take v.codeCursor <:+ done))

/-- After the start sentinel and the payload bytes `done`, with `out0` written
before: what is written and what is buffered make up `out0 ++ done`, and a stop
match in progress has consumed the sentinel's first `codeCursor` bytes last. -/
def DataInv (v : ReadVars) (out0 out done : Bytes) : Prop :=
  out ++ v.bufferedData = out0 ++ done ∧
    ((v.currentState = .processingDataAndCheckingStopCode ∧ v.codeCursor = 0) ∨
      (v.currentState = .processingStopCode ∧ 0 < v.codeCursor ∧ v.codeCursor < 64 ∧
        artifactsTarStopReadCode.take v.codeCursor <:+ done))

/-- What the extractor has added to a writer that held `w0`, after the stream
bytes `consumed`: nothing, or the first bytes of what follows an occurrence of
the start sentinel in `consumed`. -/
def Emitted (w0 : Bytes) (w : Writer) (consumed : Bytes) : Prop :=
  ∃ out, w.written = w0 ++ out ∧
    (out = [] ∨ ∃ pre rest, consumed = pre ++ artifactsTarStartReadCode ++ rest ∧ out <+: rest)

/-- The extractor's variables and writer after the stream bytes `consumed`:
before the start sentinel is matched nothing is written; after it, what is
written and what is buffered make up the bytes that follow the matched start
sentinel. -/
def PhaseInv (w0 : Bytes) (v : ReadVars) (w : Writer) (consumed : Bytes) : Prop :=
  (StartInv v consumed ∧ w.written = w0) ∨
    ((v.currentState = .processingDataAndCheckingStopCode ∨
        v.currentState = .processingStopCode) ∧
      ∃ pre rest out, consumed = pre ++ artifactsTarStartReadCode ++ rest ∧
        w.written = w0 ++ out ∧ out ++ v.bufferedData = rest)

/-- An upper-case hexadecimal digit, `0`-`9` or `A`-`F`. -/
def isHexDigit (c : Nat) : Bool := (48 ≤ c && c ≤ 57) || (65 ≤ c && c ≤ 70)

/-- The four fixed lines of the Dockerfile after the `FROM` line, without the
newline of the last. -/
def dockerfileMiddle : Bytes :=
  lit "COPY . /git\nWORKDIR /git\nRUN rm -rf .trdl\nRUN mkdir /result"

/-- The last line of the Dockerfile, the `RUN` of `serviceRunCommands`. -/
def dockerfileFinalLine : Bytes :=
  lit "RUN " ++ stringsJoin [
    lit "echo -n $(echo -n '" ++ base64Encode artifactsTarStartReadCode ++ lit "' | base64 -d)",
    lit "tar c -C " ++ containerArtifactsDir ++ lit " . | base64",
    lit "echo -n $(echo -n '" ++ base64Encode artifactsTarStopReadCode ++ lit "' | base64 -d)"
  ] (lit " && ") ++ [10]

/-- The lines `RUN <c>` of the commands, followed by the last line. -/
def dockerfileTail : List Bytes → Bytes
  | [] => dockerfileFinalLine
  | c :: rest => lit "RUN" ++ ([32] ++ (c ++ ([10] ++ dockerfileTail rest)))

/-! ## The publish step of the release job (`pathRelease`) -/

/-- The fields of `tar.Header` the job reads, with the content of the entry. -/
structure TarEntry where
  Typeflag : Nat
  Name : Bytes
  content : Bytes
  deriving DecidableEq, Repr

/-- Constant `tar.TypeDir`, the character `5`. -/
def tarTypeDir : Nat := 53

/-- One call of `twArtifacts.Next()`: a header, or an error other than `io.EOF`.
The end of the list is `io.EOF`. -/
inductive TarNext where
  | header (hdr : TarEntry)
  | error (err : Bytes)
  deriving DecidableEq, Repr

/-- A call the job makes on the publisher. -/
inductive PublisherCall where
  | PublishReleaseTarget (gitTag : Bytes) (name : Bytes) (content : Bytes)
  | Commit
  deriving DecidableEq, Repr

/-- The publisher as the job sees it: the error of the `i`-th call of
`PublishReleaseTarget` (counted from 0, `none` is `nil`) and the error of
`Commit`. -/
structure Publisher where
  publishErr : Nat → Option Bytes
  commitErr : Option Bytes

/-- The errors the publish step returns. -/
inductive ReleaseError where
  /-- The error "error reading next tar artifact header: ...". -/
  | readHeader (err : Bytes)
  /-- The error "unable to publish release target ...". -/
  | publishTarget (name : Bytes) (err : Bytes)
  /-- The error "unable to commit new tuf repository state: ...". -/
  | commit (err : Bytes)
  deriving DecidableEq, Repr

/-- The block `// TODO: publisher code here` of the task function in
`pathRelease`: the loop over the artifact tar, then `Commit`. `calls` are the
publisher calls made so far; the result is the returned error (`none` is `nil`)
and all the calls made. -/
def publishLoop (p : Publisher) (gitTag : Bytes) (calls : List PublisherCall) :
    List TarNext → Option ReleaseError × List PublisherCall
  | [] =>
    match p.commitErr with
    | some err => (some (.commit err), calls ++ [.Commit])
    | none => (none, calls ++ [.Commit])
  | .error err :: _ => (some (.readHeader err), calls)
  | .header hdr :: rest =>
    if hdr.Typeflag ≠ tarTypeDir then
      match p.publishErr calls.length with
      | some err =>
        (some (.publishTarget hdr.Name err),
          calls ++ [.PublishReleaseTarget gitTag hdr.Name hdr.content])
      | none =>
        publishLoop p gitTag (calls ++ [.PublishReleaseTarget gitTag hdr.Name hdr.content]) rest
    else publishLoop p gitTag calls rest

/-- The publish step from its start, no publisher call made yet. -/
def publishArtifacts (p : Publisher) (gitTag : Bytes) (tar : List TarNext) :
    Option ReleaseError × List PublisherCall :=
  publishLoop p gitTag [] tar

/-- The calls of `PublishReleaseTarget` due for the entries of `tar`: one per
header that is not a directory, in tar order. -/
def publishCalls (gitTag : Bytes) : List TarNext → List PublisherCall
  | [] => []
  | .error _ :: rest => publishCalls gitTag rest
  | .header hdr :: rest =>
    if hdr.Typeflag ≠ tarTypeDir then
      .PublishReleaseTarget gitTag hdr.Name hdr.content :: publishCalls gitTag rest
    else publishCalls gitTag rest

/-- Every item read from the tar is a header. -/
def allHeaders (tar : List TarNext) : Prop :=
  ∀ item ∈ tar, ∃ hdr, item = .header hdr

/-- The first `n` calls of `PublishReleaseTarget` after the `k` made before all
succeed. -/
def Publisher.accepts (p : Publisher) (k n : Nat) : Prop :=
  ∀ i < n, p.publishErr (k + i) = none

instance (p : Publisher) (k n : Nat) : Decidable (p.accepts k n) := by
  unfold Publisher.accepts
  infer_instance

/-- A publisher that accepts every target and commits. -/
def Publisher.accepting : Publisher := { publishErr := fun _ => none, commitErr := none }

/-- A publisher that rejects its second target (with the error text `no`). -/
def Publisher.rejectingSecond : Publisher :=
  { publishErr := fun i => if i = 1 then some (lit "no") else none, commitErr := none }

/-- A directory entry `bin/`. -/
def TarEntry.binDir : TarEntry := { Typeflag := tarTypeDir, Name := lit "bin/", content := [] }

/-- A regular file `bin/trdl` (type flag `0`). -/
def TarEntry.binTrdl : TarEntry := { Typeflag := 48, Name := lit "bin/trdl", content := [1, 2] }

/-- A regular file `README` (type flag `0`). -/
def TarEntry.readme : TarEntry := { Typeflag := 48, Name := lit "README", content := [3] }

/-! ## The closure `workerTaskFunc` of `doTaskWrap` -/

/-- A `context.Context` as a task function sees it: whether it is canceled
while the function runs, and the timeout it carries. -/
structure Context where
  canceled : Bool
  timeout : Option Nat
  deriving DecidableEq, Repr

/-- The function `context.WithTimeout`. -/
def Context.WithTimeout (ctx : Context) (d : Nat) : Context :=
  { ctx with timeout := some (match ctx.timeout with
                              | some t => min t d
                              | none => d) }

/-- The errors of a task function and of its wrapper. -/
inductive ActionError where
  /-- The error `ErrContextCanceled` that the tests compare with. -/
  | ErrContextCanceled
  /-- An error of the task function itself. -/
  | business (msg : String)
  deriving DecidableEq, Repr

/-- The closure `workerTaskFunc` that `doTaskWrap` builds around `taskFunc`:
`storage` is `m.Storage`, the result is the returned error (`none` is `nil`). -/
def workerTaskFunc (taskFunc : Context → Option Nat → Option ActionError)
    (taskTimeoutDuration : Nat) (storage : Option Nat) (ctx : Context) : Option ActionError :=
  let ctxWithTimeout := ctx.WithTimeout taskTimeoutDuration
  match taskFunc ctxWithTimeout storage with
  | some err => some err
  | none => none

/-! ## The sentinels -/

theorem startCode_length : artifactsTarStartReadCode.length = 64 := by decide

theorem stopCode_length : artifactsTarStopReadCode.length = 64 := by decide

theorem startCode_head : artifactsTarStartReadCode[0]? = some 49 := by decide

theorem stopCode_head : artifactsTarStopReadCode[0]? = some 65 := by decide

/-! ## The loops of the extractor -/

theorem byteLoop_append (v : ReadVars) (w : Writer) (a b : Bytes) :
    byteLoop v w (a ++ b) =
      match byteLoop v w a with
      | .next v1 w1 => byteLoop v1 w1 b
      | .ret e w1 => .ret e w1 := by
  induction a generalizing v w with
  | nil => simp [byteLoop]
  | cons x rest ih =>
    simp only [List.cons_append, byteLoop]
    cases byteStep v w x with
    | next v1 w1 => simpa using ih v1 w1
    | ret e w1 => rfl

theorem isStream_eq (d : Decoded) (h : d.isStream = true) : ∃ s, d = streamMsg s := by
  match d with
  | .malformed _ => simp [Decoded.isStream] at h
  | .message ⟨s, none⟩ => exact ⟨s, rfl⟩
  | .message ⟨_, some _⟩ => simp [Decoded.isStream] at h

/-- On a body of plain `Stream` messages the message boundaries do not matter:
the extractor runs the byte loop over the concatenated text. -/
theorem readLoop_onlyStream (body : List Decoded) (h : onlyStream body) (v : ReadVars)
    (w : Writer) :
    readLoop v w body =
      match byteLoop v w (streamBytes body) with
      | .next _ w1 => (none, w1)
      | .ret e w1 => (e, w1) := by
  induction body generalizing v w with
  | nil => simp [readLoop, streamBytes, byteLoop]
  | cons d rest ih =>
    have hrest : onlyStream rest := fun x hx => h x (List.mem_cons_of_mem _ hx)
    obtain ⟨s, rfl⟩ := isStream_eq d (h d (List.mem_cons_self _ _))
    simp only [streamMsg, readLoop, streamBytes, byteLoop_append]
    by_cases hs : s = []
    · subst hs
      simpa [byteLoop] using ih hrest v w
    · simp only [ne_eq, hs, not_false_eq_true, if_true]
      cases byteLoop v w s with
      | next v1 w1 => simpa using ih hrest v1 w1
      | ret e w1 => rfl

theorem write_unbounded (w : Writer) (p : Bytes) (h : w.room = none) :
    w.Write p = ({ written := w.written ++ p, room := none }, true) := by
  cases w with
  | mk written room =>
    simp only at h
    subst h
    rfl

/-- One byte keeps the cursor invariant and, on a writer that never fails,
returns only through the full stop match. -/
theorem byteStep_cursor (v : ReadVars) (w : Writer) (b : Nat) (hv : CursorInv v)
    (hw : w.room = none) :
    (∃ v1 w1, byteStep v w b = .next v1 w1 ∧ CursorInv v1 ∧ w1.room = none) ∨
      (∃ w1, byteStep v w b = .ret none w1) := by
  obtain ⟨st, c, buf⟩ := v
  obtain ⟨hc, h0⟩ := hv
  simp only at hc h0
  cases st with
  | checkingStartCode =>
    have hc0 : c = 0 := h0 (Or.inl rfl)
    subst hc0
    left
    simp only [byteStep, startCode_head]
    by_cases hb : b = 49
    · rw [if_pos hb]
      exact ⟨_, _, rfl, by simp [CursorInv], hw⟩
    · rw [if_neg hb]
      exact ⟨_, _, rfl, by simp [CursorInv], hw⟩
  | processingStartCode =>
    left
    have hlt : c < artifactsTarStartReadCode.length := by rw [startCode_length]; exact hc
    simp only [byteStep, List.getElem?_eq_getElem hlt, startCode_length]
    by_cases hb : b = artifactsTarStartReadCode[c]
    · rw [if_pos hb]
      by_cases h1 : 64 > c + 1
      · rw [if_pos h1]
        exact ⟨_, _, rfl, by simp [CursorInv]; omega, hw⟩
      · rw [if_neg h1]
        exact ⟨_, _, rfl, by simp [CursorInv], hw⟩
    · rw [if_neg hb]
      exact ⟨_, _, rfl, by simp [CursorInv], hw⟩
  | processingDataAndCheckingStopCode =>
    have hc0 : c = 0 := h0 (Or.inr rfl)
    subst hc0
    left
    simp only [byteStep, stopCode_head]
    by_cases hb : b = 65
    · rw [if_pos hb]
      exact ⟨_, _, rfl, by simp [CursorInv], hw⟩
    · rw [if_neg hb, write_unbounded w _ hw]
      exact ⟨_, _, rfl, by simp [CursorInv], rfl⟩
  | processingStopCode =>
    have hlt : c < artifactsTarStopReadCode.length := by rw [stopCode_length]; exact hc
    simp only [byteStep, List.getElem?_eq_getElem hlt, stopCode_length]
    by_cases hb : b = artifactsTarStopReadCode[c]
    · rw [if_pos hb]
      by_cases h1 : 64 > c + 1
      · left
        rw [if_pos h1]
        exact ⟨_, _, rfl, by simp [CursorInv]; omega, hw⟩
      · right
        rw [if_neg h1]
        exact ⟨_, rfl⟩
    · left
      rw [if_neg hb]
      exact ⟨_, _, rfl, by simp [CursorInv], hw⟩

theorem byteLoop_cursor (bytes : Bytes) (v : ReadVars) (w : Writer) (hv : CursorInv v)
    (hw : w.room = none) :
    (∃ v1 w1, byteLoop v w bytes = .next v1 w1 ∧ CursorInv v1 ∧ w1.room = none) ∨
      (∃ w1, byteLoop v w bytes = .ret none w1) := by
  induction bytes generalizing v w with
  | nil => exact Or.inl ⟨v, w, rfl, hv, hw⟩
  | cons b rest ih =>
    rcases byteStep_cursor v w b hv hw with ⟨v1, w1, h1, hv1, hw1⟩ | ⟨w1, h1⟩
    · simp only [byteLoop, h1]
      exact ih v1 w1 hv1 hw1
    · right
      exact ⟨w1, by simp [byteLoop, h1]⟩

/-! ## Searching the start sentinel -/

theorem take_succ_suffix (code done : Bytes) (c : Nat) (hc : c < code.length)
    (h : code.take c <:+ done) : code.take (c + 1) <:+ done ++ [code[c]] := by
  obtain ⟨t, ht⟩ := h
  refine ⟨t, ?_⟩
  rw [List.take_succ, List.getElem?_eq_getElem hc, ← List.append_assoc, ht]
  rfl

theorem startInv_step (v : ReadVars) (w : Writer) (done : Bytes) (b : Nat)
    (hv : StartInv v done) (hno : ¬ artifactsTarStartReadCode <:+ done ++ [b]) :
    ∃ v1, byteStep v w b = .next v1 w ∧ StartInv v1 (done ++ [b]) := by
  obtain ⟨st, c, buf⟩ := v
  obtain ⟨hbuf, hst⟩ := hv
  simp only at hbuf hst
  subst hbuf
  rcases hst with ⟨h1, h2⟩ | ⟨h1, h2, h3, h4⟩
  · subst h1 h2
    simp only [byteStep, startCode_head]
    by_cases hb : b = 49
    · rw [if_pos hb]
      refine ⟨_, rfl, rfl, Or.inr ⟨rfl, by simp, by simp, ?_⟩⟩
      subst hb
      exact ⟨done, rfl⟩
    · rw [if_neg hb]
      exact ⟨_, rfl, rfl, Or.inl ⟨rfl, rfl⟩⟩
  · subst h1
    have hlt : c < artifactsTarStartReadCode.length := by rw [startCode_length]; exact h3
    simp only [byteStep, List.getElem?_eq_getElem hlt, startCode_length]
    by_cases hb : b = artifactsTarStartReadCode[c]
    · have hsuf := take_succ_suffix artifactsTarStartReadCode done c hlt h4
      rw [← hb] at hsuf
      rw [if_pos hb]
      by_cases hc : 64 > c + 1
      · rw [if_pos hc]
        exact ⟨_, rfl, rfl, Or.inr ⟨rfl, by simp, by simpa using hc, hsuf⟩⟩
      · exfalso
        apply hno
        have h64 : c + 1 = artifactsTarStartReadCode.length := by
          rw [startCode_length]; omega
        rw [h64, List.take_length] at hsuf
        exact hsuf
    · rw [if_neg hb]
      exact ⟨_, rfl, rfl, Or.inl ⟨rfl, rfl⟩⟩

theorem occurs_of_suffix_append (code done a b : Bytes) (h : code <:+ done ++ a) :
    code <:+: done ++ (a ++ b) := by
  obtain ⟨t, ht⟩ := h
  exact ⟨t, b, by rw [ht, List.append_assoc]⟩

theorem startInv_loop (bytes : Bytes) (v : ReadVars) (w : Writer) (done : Bytes)
    (hv : StartInv v done) (hno : ¬ artifactsTarStartReadCode <:+: done ++ bytes) :
    ∃ v1, byteLoop v w bytes = .next v1 w ∧ StartInv v1 (done ++ bytes) := by
  induction bytes generalizing v done with
  | nil => exact ⟨v, rfl, by simpa using hv⟩
  | cons b rest ih =>
    have hstep : ¬ artifactsTarStartReadCode <:+ done ++ [b] := fun h =>
      hno (occurs_of_suffix_append _ done [b] rest h)
    obtain ⟨v1, h1, hv1⟩ := startInv_step v w done b hv hstep
    have hno1 : ¬ artifactsTarStartReadCode <:+: (done ++ [b]) ++ rest := by
      simpa using hno
    obtain ⟨v2, h2, hv2⟩ := ih v1 (done ++ [b]) hv1 hno1
    refine ⟨v2, ?_, by simpa using hv2⟩
    simp only [byteLoop, h1, h2]

/-- A log text that does not contain the start sentinel and does not end inside
an occurrence of it leaves the extractor as it started. -/
theorem byteLoop_log (pre : Bytes) (w : Writer)
    (hpre : ¬ artifactsTarStartReadCode <:+: pre)
    (hend : ∀ k < 64, ¬ artifactsTarStartReadCode.take (k + 1) <:+ pre) :
    byteLoop ReadVars.init w pre = .next ReadVars.init w := by
  have h0 : StartInv ReadVars.init [] := ⟨rfl, Or.inl ⟨rfl, rfl⟩⟩
  obtain ⟨v1, h1, hv1⟩ := startInv_loop pre ReadVars.init w [] h0 (by simpa using hpre)
  rw [h1]
  obtain ⟨st, c, buf⟩ := v1
  obtain ⟨hbuf, hst⟩ := hv1
  simp only [List.nil_append] at hbuf hst
  rcases hst with ⟨h2, h3⟩ | ⟨_, h3, h4, h5⟩
  · subst hbuf h2 h3
    rfl
  · exfalso
    have := hend (c - 1) (by omega)
    rw [Nat.sub_add_cancel h3] at this
    exact this h5

/-- A start match in progress at cursor `c` runs to its end over the rest of
the sentinel. -/
theorem byteLoop_startRest (rest : Bytes) (c : Nat) (w : Writer) (h0 : 0 < c) (hc : c < 64)
    (hrest : artifactsTarStartReadCode.drop c = rest) :
    byteLoop { currentState := .processingStartCode, codeCursor := c, bufferedData := [] } w rest
      = .next ReadVars.data w := by
  induction rest generalizing c with
  | nil =>
    exfalso
    have := congrArg List.length hrest
    simp [startCode_length] at this
    omega
  | cons x rest ih =>
    have hlt : c < artifactsTarStartReadCode.length := by rw [startCode_length]; exact hc
    rw [List.drop_eq_getElem_cons hlt] at hrest
    obtain ⟨hx, hrest1⟩ := List.cons.inj hrest
    simp only [byteLoop, byteStep, List.getElem?_eq_getElem hlt, startCode_length, hx, if_true]
    by_cases h1 : 64 > c + 1
    · rw [if_pos h1]
      exact ih (c + 1) (by omega) h1 hrest1
    · rw [if_neg h1]
      have : rest = [] := by
        have := congrArg List.length hrest1
        simp [startCode_length] at this
        apply List.eq_nil_of_length_eq_zero
        omega
      subst this
      rfl

/-- From the initial variables the start sentinel leads into the payload. -/
theorem byteLoop_startCode (w : Writer) :
    byteLoop ReadVars.init w artifactsTarStartReadCode = .next ReadVars.data w := by
  have h : artifactsTarStartReadCode = 49 :: artifactsTarStartReadCode.drop 1 := by decide
  rw [h]
  simp only [byteLoop, byteStep, ReadVars.init, startCode_head, if_true]
  exact byteLoop_startRest _ 1 w (by omega) (by omega) rfl

/-! ## The payload and the stop sentinel -/

theorem dataInv_step (v : ReadVars) (out0 out done : Bytes) (b : Nat)
    (hv : DataInv v out0 out done) (hno : ¬ artifactsTarStopReadCode <:+ done ++ [b]) :
    ∃ v1 out1, byteStep v { written := out, room := none } b
        = .next v1 { written := out1, room := none } ∧
      DataInv v1 out0 out1 (done ++ [b]) ∧
      (v.currentState = .processingDataAndCheckingStopCode → b ≠ 65 →
        v1 = ReadVars.data) := by
  obtain ⟨st, c, buf⟩ := v
  obtain ⟨hout, hst⟩ := hv
  simp only at hout hst
  rcases hst with ⟨h1, h2⟩ | ⟨h1, h2, h3, h4⟩
  · subst h1 h2
    simp only [byteStep, stopCode_head]
    by_cases hb : b = 65
    · rw [if_pos hb]
      refine ⟨_, out, rfl, ⟨?_, Or.inr ⟨rfl, by simp, by simp, ?_⟩⟩, fun _ h => absurd hb h⟩
      · simp only
        rw [← List.append_assoc, hout, List.append_assoc]
      · subst hb
        exact ⟨done, rfl⟩
    · rw [if_neg hb, write_unbounded _ _ rfl]
      refine ⟨_, _, rfl, ⟨?_, Or.inl ⟨rfl, rfl⟩⟩, fun _ _ => rfl⟩
      simp only [List.append_nil]
      rw [← List.append_assoc, hout, List.append_assoc]
  · subst h1
    have hlt : c < artifactsTarStopReadCode.length := by rw [stopCode_length]; exact h3
    simp only [byteStep, List.getElem?_eq_getElem hlt, stopCode_length]
    by_cases hb : b = artifactsTarStopReadCode[c]
    · have hsuf := take_succ_suffix artifactsTarStopReadCode done c hlt h4
      rw [← hb] at hsuf
      rw [if_pos hb]
      by_cases hc : 64 > c + 1
      · rw [if_pos hc]
        refine ⟨_, out, rfl, ⟨?_, Or.inr ⟨rfl, by simp, by simpa using hc, hsuf⟩⟩,
          fun h => by simp at h⟩
        simp only
        rw [← List.append_assoc, hout, List.append_assoc]
      · exfalso
        apply hno
        have h64 : c + 1 = artifactsTarStopReadCode.length := by
          rw [stopCode_length]; omega
        rw [h64, List.take_length] at hsuf
        exact hsuf
    · rw [if_neg hb]
      refine ⟨_, out, rfl, ⟨?_, Or.inl ⟨rfl, rfl⟩⟩, fun h => by simp at h⟩
      simp only
      rw [← List.append_assoc, hout, List.append_assoc]

theorem dataInv_loop (bytes : Bytes) (v : ReadVars) (out0 out done : Bytes)
    (hv : DataInv v out0 out done) (hno : ¬ artifactsTarStopReadCode <:+: done ++ bytes) :
    ∃ v1 out1, byteLoop v { written := out, room := none } bytes
        = .next v1 { written := out1, room := none } ∧
      DataInv v1 out0 out1 (done ++ bytes) := by
  induction bytes generalizing v out done with
  | nil => exact ⟨v, out, rfl, by simpa using hv⟩
  | cons b rest ih =>
    have hstep : ¬ artifactsTarStopReadCode <:+ done ++ [b] := fun h =>
      hno (occurs_of_suffix_append _ done [b] rest h)
    obtain ⟨v1, out1, h1, hv1, _⟩ := dataInv_step v out0 out done b hv hstep
    have hno1 : ¬ artifactsTarStopReadCode <:+: (done ++ [b]) ++ rest := by
      simpa using hno
    obtain ⟨v2, out2, h2, hv2⟩ := ih v1 out1 (done ++ [b]) hv1 hno1
    refine ⟨v2, out2, ?_, by simpa using hv2⟩
    simp only [byteLoop, h1, h2]

/-- A payload that does not contain the stop sentinel, does not end in `A` and,
its last byte apart, does not end inside an occurrence of the stop sentinel, is
written out whole, and nothing of it stays buffered. -/
theorem byteLoop_payload (p out0 : Bytes)
    (hp : ¬ artifactsTarStopReadCode <:+: p)
    (hlast : p.getLast? ≠ some 65)
    (hend : ∀ k < 64, ¬ artifactsTarStopReadCode.take (k + 1) <:+ p.dropLast) :
    byteLoop ReadVars.data { written := out0, room := none } p
      = .next ReadVars.data { written := out0 ++ p, room := none } := by
  rcases List.eq_nil_or_concat p with rfl | ⟨q, y, rfl⟩
  · simp [byteLoop]
  · have hy : y ≠ 65 := by simpa using hlast
    simp only [List.concat_eq_append, List.dropLast_concat] at hend hp ⊢
    have h0 : DataInv ReadVars.data out0 out0 [] := ⟨by simp [ReadVars.data], Or.inl ⟨rfl, rfl⟩⟩
    have hq : ¬ artifactsTarStopReadCode <:+: [] ++ q := fun h =>
      hp (List.IsInfix.trans h ⟨[], [y], by simp⟩)
    obtain ⟨v1, out1, h1, hv1⟩ := dataInv_loop q ReadVars.data out0 out0 [] h0 hq
    simp only [List.nil_append] at hv1
    have hstate : v1.currentState = .processingDataAndCheckingStopCode := by
      rcases hv1.2 with ⟨h2, _⟩ | ⟨_, h3, h4, h5⟩
      · exact h2
      · exfalso
        have := hend (v1.codeCursor - 1) (by omega)
        rw [Nat.sub_add_cancel h3] at this
        exact this h5
    have hstep : ¬ artifactsTarStopReadCode <:+ q ++ [y] := fun h => hp h.isInfix
    obtain ⟨v2, out2, h2, hv2, hclean⟩ := dataInv_step v1 out0 out1 q y hv1 hstep
    have hv2d : v2 = ReadVars.data := hclean hstate hy
    subst hv2d
    have hout : out2 = out0 ++ (q ++ [y]) := by simpa [ReadVars.data] using hv2.1
    rw [byteLoop_append, h1]
    simp only [byteLoop, h2, hout]

/-- A stop match in progress at cursor `c` runs to its end over the rest of the
sentinel: the extractor returns `nil`, writes nothing more and reads no further. -/
theorem byteLoop_stopRest (rest : Bytes) (c : Nat) (buf : Bytes) (w : Writer) (suf : Bytes)
    (h0 : 0 < c) (hc : c < 64) (hrest : artifactsTarStopReadCode.drop c = rest) :
    byteLoop { currentState := .processingStopCode, codeCursor := c, bufferedData := buf } w
      (rest ++ suf) = .ret none w := by
  induction rest generalizing c buf with
  | nil =>
    exfalso
    have := congrArg List.length hrest
    simp [stopCode_length] at this
    omega
  | cons x rest ih =>
    have hlt : c < artifactsTarStopReadCode.length := by rw [stopCode_length]; exact hc
    rw [List.drop_eq_getElem_cons hlt] at hrest
    obtain ⟨hx, hrest1⟩ := List.cons.inj hrest
    simp only [List.cons_append, byteLoop, byteStep, List.getElem?_eq_getElem hlt,
      stopCode_length, hx, if_true]
    by_cases h1 : 64 > c + 1
    · rw [if_pos h1]
      exact ih (c + 1) _ (by omega) h1 hrest1
    · rw [if_neg h1]

/-- With nothing buffered, the stop sentinel ends the extraction. -/
theorem byteLoop_stopCode (w : Writer) (suf : Bytes) :
    byteLoop ReadVars.data w (artifactsTarStopReadCode ++ suf) = .ret none w := by
  have key := byteLoop_stopRest (artifactsTarStopReadCode.drop 1) 1 [65] w suf
    (by omega) (by omega) rfl
  have hstep : byteStep ReadVars.data w 65
      = .next { currentState := .processingStopCode, codeCursor := 1, bufferedData := [65] } w :=
    rfl
  have h : artifactsTarStopReadCode ++ suf
      = 65 :: (artifactsTarStopReadCode.drop 1 ++ suf) := by
    have h1 : artifactsTarStopReadCode = 65 :: artifactsTarStopReadCode.drop 1 := by decide
    conv_lhs => rw [h1]
    rfl
  rw [h]
  show (match byteStep ReadVars.data w 65 with
    | .next v1 w1 => byteLoop v1 w1 (artifactsTarStopReadCode.drop 1 ++ suf)
    | .ret e w1 => .ret e w1) = _
  rw [hstep]
  exact key

/-! ## base64: decoding undoes encoding -/

theorem b64Val_b64Char : ∀ v < 64, b64Val (b64Char v) = some v := by decide

theorem b64Char_plain : ∀ v < 64, b64Char v ≠ 61 ∧ b64Char v ≠ 10 ∧ b64Char v ≠ 13 := by
  decide

theorem base64Encode_eq_nil (t : Bytes) (h : base64Encode t = []) : t = [] := by
  match t with
  | [] => rfl
  | [_] => simp [base64Encode] at h
  | [_, _] => simp [base64Encode] at h
  | _ :: _ :: _ :: _ => simp [base64Encode] at h

theorem base64Encode_no_newline (t : Bytes) (ht : ∀ b ∈ t, b < 256) :
    ∀ c ∈ base64Encode t, c ≠ 10 ∧ c ≠ 13 := by
  induction t using base64Encode.induct with
  | case1 => simp [base64Encode]
  | case2 a =>
    have ha : a < 256 := ht a (by simp)
    have h0 := b64Char_plain (a / 4) (by omega)
    have h1 := b64Char_plain (a % 4 * 16) (by omega)
    intro c hc
    simp only [base64Encode, List.mem_cons, List.mem_singleton, List.not_mem_nil, or_false] at hc
    rcases hc with rfl | rfl | rfl | rfl
    · exact h0.2
    · exact h1.2
    · decide
    · decide
  | case3 a b =>
    have ha : a < 256 := ht a (by simp)
    have hb : b < 256 := ht b (by simp)
    have h0 := b64Char_plain (a / 4) (by omega)
    have h1 := b64Char_plain (a % 4 * 16 + b / 16) (by omega)
    have h2 := b64Char_plain (b % 16 * 4) (by omega)
    intro c hc
    simp only [base64Encode, List.mem_cons, List.mem_singleton, List.not_mem_nil, or_false] at hc
    rcases hc with rfl | rfl | rfl | rfl
    · exact h0.2
    · exact h1.2
    · exact h2.2
    · decide
  | case4 a b c rest ih =>
    have ha : a < 256 := ht a (by simp)
    have hb : b < 256 := ht b (by simp)
    have hc : c < 256 := ht c (by simp)
    have h0 := b64Char_plain (a / 4) (by omega)
    have h1 := b64Char_plain (a % 4 * 16 + b / 16) (by omega)
    have h2 := b64Char_plain (b % 16 * 4 + c / 64) (by omega)
    have h3 := b64Char_plain (c % 64) (by omega)
    have hrest : ∀ x ∈ rest, x < 256 := fun x hx => ht x (by simp [hx])
    intro x hx
    simp only [base64Encode, List.mem_cons] at hx
    rcases hx with rfl | rfl | rfl | rfl | hx
    · exact h0.2
    · exact h1.2
    · exact h2.2
    · exact h3.2
    · exact ih hrest x hx

theorem base64DecodeGroups_encode (t : Bytes) (ht : ∀ b ∈ t, b < 256) :
    base64DecodeGroups (base64Encode t) = some t := by
  induction t using base64Encode.induct with
  | case1 => simp [base64Encode, base64DecodeGroups]
  | case2 a =>
    have ha : a < 256 := ht a (by simp)
    have h0 := b64Val_b64Char (a / 4) (by omega)
    have h1 := b64Val_b64Char (a % 4 * 16) (by omega)
    simp only [base64Encode, base64DecodeGroups, if_true, base64DecodeLast, h0, h1, and_self]
    rw [if_pos (by omega)]
    congr 2
    omega
  | case3 a b =>
    have ha : a < 256 := ht a (by simp)
    have hb : b < 256 := ht b (by simp)
    have h0 := b64Val_b64Char (a / 4) (by omega)
    have h1 := b64Val_b64Char (a % 4 * 16 + b / 16) (by omega)
    have h2 := b64Val_b64Char (b % 16 * 4) (by omega)
    have hp := (b64Char_plain (b % 16 * 4) (by omega)).1
    simp only [base64Encode, base64DecodeGroups, if_true, base64DecodeLast, h0, h1, h2]
    rw [if_neg (fun h => hp h.1), if_pos (by omega)]
    congr 2
    · omega
    · congr 1
      omega
  | case4 a b c rest ih =>
    have ha : a < 256 := ht a (by simp)
    have hb : b < 256 := ht b (by simp)
    have hc : c < 256 := ht c (by simp)
    have h0 := b64Val_b64Char (a / 4) (by omega)
    have h1 := b64Val_b64Char (a % 4 * 16 + b / 16) (by omega)
    have h2 := b64Val_b64Char (b % 16 * 4 + c / 64) (by omega)
    have h3 := b64Val_b64Char (c % 64) (by omega)
    have hp2 := (b64Char_plain (b % 16 * 4 + c / 64) (by omega)).1
    have hp3 : b64Char (c % 64) ≠ b64Pad := (b64Char_plain (c % 64) (by omega)).1
    have hrest : ∀ x ∈ rest, x < 256 := fun x hx => ht x (by simp [hx])
    have e0 : a / 4 * 4 + (a % 4 * 16 + b / 16) / 16 = a := by omega
    have e1 : (a % 4 * 16 + b / 16) % 16 * 16 + (b % 16 * 4 + c / 64) / 4 = b := by omega
    have e2 : (b % 16 * 4 + c / 64) % 4 * 64 + c % 64 = c := by omega
    simp only [base64Encode, base64DecodeGroups]
    by_cases hr : base64Encode rest = []
    · have hr0 := base64Encode_eq_nil rest hr
      subst hr0
      rw [if_pos hr]
      simp only [base64DecodeLast, h0, h1, h2, h3]
      rw [if_neg (fun h => hp2 h.1), if_neg hp3, e0, e1, e2]
    · rw [if_neg hr]
      simp only [h0, h1, h2, h3, ih hrest, e0, e1, e2]

/-- Decoding what `EncodeToString` produced gives the bytes back. -/
theorem base64Decode_encode (t : Bytes) (ht : ∀ b ∈ t, b < 256) :
    base64Decode (base64Encode t) = some t := by
  unfold base64Decode
  rw [List.filter_eq_self.mpr, base64DecodeGroups_encode t ht]
  intro c hc
  have := base64Encode_no_newline t ht c hc
  simp [this.1, this.2]

/-! ## The extractor: round trip, stop sentinel, end of input -/

/-- C1 (as amended): for a log text `pre` that neither contains the start
sentinel nor ends inside an occurrence of it, bytes `t` whose base64 text does
not contain the stop sentinel, does not end in `A` and, its last byte apart,
does not end inside an occurrence of the stop sentinel, any text `suf`, and any
split of `pre · START · base64(t) · STOP · suf` into `Stream` messages, the
extractor returns `nil`, writes exactly `base64(t)`, and decoding that gives
`t`. -/
theorem readTar_round_trip (pre t suf : Bytes) (body : List Decoded) (w : Writer)
    (hw : w.room = none)
    (hbody : onlyStream body)
    (hsplit : streamBytes body =
      pre ++ artifactsTarStartReadCode ++ base64Encode t ++ artifactsTarStopReadCode ++ suf)
    (ht : ∀ b ∈ t, b < 256)
    (hpre : ¬ artifactsTarStartReadCode <:+: pre)
    (hpreEnd : ∀ k < 64, ¬ artifactsTarStartReadCode.take (k + 1) <:+ pre)
    (hpay : ¬ artifactsTarStopReadCode <:+: base64Encode t)
    (hlast : (base64Encode t).getLast? ≠ some 65)
    (hpayEnd : ∀ k < 64, ¬ artifactsTarStopReadCode.take (k + 1) <:+ (base64Encode t).dropLast) :
    readTarFromImageBuildResponse body w
        = (none, { written := w.written ++ base64Encode t, room := none }) ∧
      base64Decode (base64Encode t) = some t := by
  refine ⟨?_, base64Decode_encode t ht⟩
  obtain ⟨out0, room⟩ := w
  simp only at hw
  subst hw
  unfold readTarFromImageBuildResponse
  rw [readLoop_onlyStream body hbody, hsplit]
  simp only [List.append_assoc]
  rw [byteLoop_append, byteLoop_log pre _ hpre hpreEnd]
  simp only
  rw [byteLoop_append, byteLoop_startCode]
  simp only
  rw [byteLoop_append, byteLoop_payload _ out0 hpay hlast hpayEnd]
  simp only
  rw [byteLoop_stopCode]

/-- C1, the scenario S6: the messages `"log\n"`, `START + base64("hello")`,
`STOP`, `"done\n"` give `base64("hello")`, which decodes to `hello`. -/
theorem readTar_round_trip_witness :
    readTarFromImageBuildResponse
        [streamMsg (lit "log\n"),
         streamMsg (artifactsTarStartReadCode ++ base64Encode (lit "hello")),
         streamMsg artifactsTarStopReadCode, streamMsg (lit "done\n")] Writer.pipe
        = (none, { written := Writer.pipe.written ++ base64Encode (lit "hello"), room := none }) ∧
      base64Decode (base64Encode (lit "hello")) = some (lit "hello") :=
  readTar_round_trip (lit "log\n") (lit "hello") (lit "done\n") _ Writer.pipe rfl
    (by decide) (by decide) (by decide) (by decide) (by decide) (by decide) (by decide) (by decide)

/-- C1 as stated fails: the base64 text of `stopCodePayload` is the stop sentinel
itself, so on `START · base64(T) · STOP`, with an empty log text before and
after, the extractor stops at the payload and writes nothing. -/
theorem readTar_round_trip_counterexample :
    ¬ artifactsTarStartReadCode <:+: ([] : Bytes) ∧
      streamBytes [streamMsg (artifactsTarStartReadCode ++ base64Encode stopCodePayload
          ++ artifactsTarStopReadCode)]
        = [] ++ artifactsTarStartReadCode ++ base64Encode stopCodePayload
          ++ artifactsTarStopReadCode ++ [] ∧
      readTarFromImageBuildResponse
          [streamMsg (artifactsTarStartReadCode ++ base64Encode stopCodePayload
            ++ artifactsTarStopReadCode)] Writer.pipe
        = (none, { written := [], room := none }) ∧
      base64Encode stopCodePayload = artifactsTarStopReadCode ∧
      base64Decode [] ≠ some stopCodePayload := by
  decide

/-- C2 at the failing input `START · "A" · STOP`: the `A` starts a stop match,
the sentinel's own `A` breaks it and is not looked at again, and the whole stop
sentinel is written to the output. -/
theorem readTar_writes_stop_sentinel :
    readTarFromImageBuildResponse
        [streamMsg (artifactsTarStartReadCode ++ lit "A" ++ artifactsTarStopReadCode)]
        Writer.pipe
      = (none, { written := lit "A" ++ artifactsTarStopReadCode, room := none }) ∧
      artifactsTarStopReadCode <:+: lit "A" ++ artifactsTarStopReadCode := by
  refine ⟨by decide, ⟨lit "A", [], by simp⟩⟩

/-- C3 (as amended): on well-formed messages without `Error` and a writer that
never fails, the extractor returns `nil` wherever the input ends, so also when
it ends before a complete start sentinel or between the start and the stop
sentinel. -/
theorem readTar_eof_returns_nil (body : List Decoded) (w : Writer) (h : onlyStream body)
    (hw : w.room = none) : (readTarFromImageBuildResponse body w).1 = none := by
  unfold readTarFromImageBuildResponse
  rw [readLoop_onlyStream body h]
  have hinit : CursorInv ReadVars.init := ⟨by decide, fun _ => rfl⟩
  rcases byteLoop_cursor (streamBytes body) ReadVars.init w hinit hw with
    ⟨v1, w1, h1, _, _⟩ | ⟨w1, h1⟩
  · rw [h1]
  · rw [h1]

/-- C3, on the messages `"log"`, `START[:10]` followed by EOF. -/
theorem readTar_eof_returns_nil_witness :
    (readTarFromImageBuildResponse
      [streamMsg (lit "log"), streamMsg (artifactsTarStartReadCode.take 10)] Writer.pipe).1
      = none :=
  readTar_eof_returns_nil _ Writer.pipe (by decide) rfl

/-- C3 as stated fails: `"log"`, `START[:10]` and then EOF returns `nil` with
nothing written, and `START · "aGVs"` and then EOF returns `nil` with the four
payload bytes written. -/
theorem readTar_truncated_counterexample :
    readTarFromImageBuildResponse
        [streamMsg (lit "log"), streamMsg (artifactsTarStartReadCode.take 10)] Writer.pipe
      = (none, { written := [], room := none }) ∧
      readTarFromImageBuildResponse
        [streamMsg (artifactsTarStartReadCode ++ lit "aGVs")] Writer.pipe
      = (none, { written := lit "aGVs", room := none }) := by
  decide

/-! ## The generated Dockerfile -/

theorem foldl_addLine (runCommands : List Bytes) (data : Bytes) :
    runCommands.foldl (fun data command => addLineFunc data (lit "RUN " ++ command)) data
      = data ++ (runCommands.map fun c => lit "RUN " ++ c ++ lit "\n").flatten := by
  induction runCommands generalizing data with
  | nil => simp
  | cons c rest ih =>
    have hn : lit "\n" = [10] := by decide
    simp only [List.foldl_cons, List.map_cons, List.flatten_cons]
    rw [ih]
    simp only [addLineFunc, hn, List.append_assoc]

/-- C4: the Dockerfile is, in this order and nothing else, the five fixed lines
with `from_image` in the first, one line `RUN <c>` per command in list order,
and the final `RUN` line that joins with ` && ` the echo of the start sentinel,
`tar c -C /result . | base64` and the echo of the stop sentinel, each sentinel
written as its base64 text; every line ends in a newline. -/
theorem generateServiceDockerfile_lines (fromImage : Bytes) (runCommands : List Bytes) :
    generateServiceDockerfile fromImage runCommands
        = lit "FROM " ++ fromImage ++ lit "\n"
          ++ lit "COPY . /git\n"
          ++ lit "WORKDIR /git\n"
          ++ lit "RUN rm -rf .trdl\n"
          ++ lit "RUN mkdir /result\n"
          ++ (runCommands.map fun c => lit "RUN " ++ c ++ lit "\n").flatten
          ++ (lit "RUN echo -n $(echo -n '" ++ base64Encode artifactsTarStartReadCode
              ++ lit "' | base64 -d) && tar c -C /result . | base64 && echo -n $(echo -n '"
              ++ base64Encode artifactsTarStopReadCode ++ lit "' | base64 -d)\n") ∧
      base64Encode artifactsTarStartReadCode = lit
        "MUVBMDFGNTNFMDI3NzU0NkUxQjE3MjY3RjI5QTYwQjNDRDREQzEyNzQ0QzJGQTJCRjA4OTcwNjVEQzM3NDlGMw==" ∧
      base64Encode artifactsTarStopReadCode = lit
        "QTJGMDBEQjBERUUzNTQwRTI0NkI3NUI4NzJENjQ3NzNERjY3QkM1MUM1RDM2RDUwRkE2OTc4RTJGRkRBN0Q0Mw==" := by
  refine ⟨?_, by decide, by decide⟩
  have h1 : lit "COPY . " ++ containerSourceDir = lit "COPY . /git" := by decide
  have h2 : lit "WORKDIR " ++ containerSourceDir = lit "WORKDIR /git" := by decide
  have h3 : lit "RUN " ++ (lit "rm -rf " ++ serviceDirInContextTar) = lit "RUN rm -rf .trdl" := by
    decide
  have h4 : lit "RUN " ++ (lit "mkdir " ++ containerArtifactsDir) = lit "RUN mkdir /result" := by
    decide
  have h5 : lit "tar c -C " ++ containerArtifactsDir ++ lit " . | base64"
      = lit "tar c -C /result . | base64" := by decide
  have n1 : lit "COPY . /git\n" = lit "COPY . /git" ++ [10] := by decide
  have n2 : lit "WORKDIR /git\n" = lit "WORKDIR /git" ++ [10] := by decide
  have n3 : lit "RUN rm -rf .trdl\n" = lit "RUN rm -rf .trdl" ++ [10] := by decide
  have n4 : lit "RUN mkdir /result\n" = lit "RUN mkdir /result" ++ [10] := by decide
  have n5 : lit "\n" = [10] := by decide
  have n6 : lit "' | base64 -d) && tar c -C /result . | base64 && echo -n $(echo -n '"
      = lit "' | base64 -d)" ++ (lit " && " ++ (lit "tar c -C /result . | base64"
        ++ (lit " && " ++ lit "echo -n $(echo -n '"))) := by decide
  have n7 : lit "RUN echo -n $(echo -n '" = lit "RUN " ++ lit "echo -n $(echo -n '" := by decide
  have n8 : lit "' | base64 -d)\n" = lit "' | base64 -d)" ++ [10] := by decide
  simp only [generateServiceDockerfile, foldl_addLine]
  simp only [addLineFunc, stringsJoin, h1, h2, h3, h4, h5, n1, n2, n3, n4, n5, n6, n7, n8,
    List.append_assoc, List.nil_append]

/-! ## The task store -/

theorem lookup_cons_self (k : String) (t : Task) (rest : List (String × Task)) :
    ((k, t) :: rest).lookup k = some t := by
  simp [List.lookup]

theorem lookup_cons_ne (k k1 : String) (t1 : Task) (rest : List (String × Task))
    (h : k ≠ k1) : ((k1, t1) :: rest).lookup k = rest.lookup k := by
  have hb : (k == k1) = false := by simpa using h
  simp [List.lookup, hb]

theorem lookup_putEntry (key : String) (task : Task) (l : List (String × Task)) (k : String) :
    (putEntry key task l).lookup k = if k = key then some task else l.lookup k := by
  induction l with
  | nil =>
    by_cases h : k = key
    · subst h
      rw [if_pos rfl]
      exact lookup_cons_self k task []
    · rw [if_neg h]
      exact lookup_cons_ne k key task [] h
  | cons e rest ih =>
    obtain ⟨k1, t1⟩ := e
    by_cases h1 : k1 = key
    · subst h1
      simp only [putEntry, if_true]
      by_cases h : k = k1
      · subst h
        rw [if_pos rfl]
        exact lookup_cons_self k task rest
      · rw [if_neg h, lookup_cons_ne k k1 task rest h, lookup_cons_ne k k1 t1 rest h]
    · simp only [putEntry, h1, if_false]
      by_cases h2 : k = k1
      · subst h2
        rw [lookup_cons_self, lookup_cons_self, if_neg h1]
      · rw [lookup_cons_ne k k1 t1 _ h2, lookup_cons_ne k k1 t1 _ h2, ih]

theorem mem_keys_of_lookup (l : List (String × Task)) (k : String) (t : Task)
    (h : l.lookup k = some t) : k ∈ l.map Prod.fst := by
  induction l with
  | nil => simp [List.lookup] at h
  | cons e rest ih =>
    obtain ⟨k1, t1⟩ := e
    by_cases h1 : k = k1
    · simp [h1]
    · rw [lookup_cons_ne k k1 t1 rest h1] at h
      simp [ih h]

theorem lookup_of_mem_keys (l : List (String × Task)) (k : String)
    (h : k ∈ l.map Prod.fst) : ∃ t, l.lookup k = some t := by
  induction l with
  | nil => simp at h
  | cons e rest ih =>
    obtain ⟨k1, t1⟩ := e
    by_cases h1 : k = k1
    · subst h1
      exact ⟨t1, lookup_cons_self k t1 rest⟩
    · have hk : k ∈ rest.map Prod.fst := by simpa [h1] using h
      obtain ⟨t, ht⟩ := ih hk
      exact ⟨t, by rw [lookup_cons_ne k k1 t1 rest h1]; exact ht⟩

/-- When the loop ends with `busy` unset, no listed task is `Queued`. -/
theorem busyLoop_false (s : Storage) (keys : List String) (h : busyLoop s keys = .ok false) :
    ∀ k ∈ keys, ∀ t, s.tasks.lookup k = some t → t.Status ≠ .queued := by
  induction keys with
  | nil => simp
  | cons k rest ih =>
    unfold busyLoop getTaskFromStorage at h
    by_cases hf : s.failGetTask = true
    · simp [hf] at h
    · simp only [hf, Bool.false_eq_true, if_false] at h
      cases hl : s.tasks.lookup k with
      | none => simp [hl] at h
      | some task =>
        simp only [hl] at h
        by_cases hq : task.Status = taskStatusQueued
        · simp [hq] at h
        · simp only [hq, if_false] at h
          intro k1 hk1 t ht
          rcases List.mem_cons.mp hk1 with rfl | hk1
          · rw [hl] at ht
            cases ht
            exact hq
          · exact ih h k1 hk1 t ht

/-- On a storage whose reads succeed, with no listed task `Queued`, the loop
ends with `busy` unset. -/
theorem busyLoop_idle (s : Storage) (keys : List String) (hf : s.failGetTask = false)
    (hkeys : ∀ k ∈ keys, k ∈ s.tasks.map Prod.fst)
    (h : ∀ k t, s.tasks.lookup k = some t → t.Status ≠ .queued) :
    busyLoop s keys = .ok false := by
  induction keys with
  | nil => rfl
  | cons k rest ih =>
    obtain ⟨t, ht⟩ := lookup_of_mem_keys s.tasks k (hkeys k (List.mem_cons_self _ _))
    have hq : ¬ t.Status = taskStatusQueued := h k t ht
    unfold busyLoop getTaskFromStorage
    simp only [hf, Bool.false_eq_true, if_false, ht, hq]
    exact ih fun k1 hk1 => hkeys k1 (List.mem_cons_of_mem _ hk1)

/-- On a storage whose reads succeed, a listed `Queued` task sets `busy`. -/
theorem busyLoop_queued (s : Storage) (keys : List String) (hf : s.failGetTask = false)
    (hkeys : ∀ k ∈ keys, k ∈ s.tasks.map Prod.fst)
    (h : ∃ k ∈ keys, ∃ t, s.tasks.lookup k = some t ∧ t.Status = .queued) :
    busyLoop s keys = .ok true := by
  induction keys with
  | nil => simp at h
  | cons k rest ih =>
    obtain ⟨t, ht⟩ := lookup_of_mem_keys s.tasks k (hkeys k (List.mem_cons_self _ _))
    unfold busyLoop getTaskFromStorage
    simp only [hf, Bool.false_eq_true, if_false, ht]
    by_cases hq : t.Status = taskStatusQueued
    · simp [hq]
    · simp only [hq, if_false]
      apply ih (fun k1 hk1 => hkeys k1 (List.mem_cons_of_mem _ hk1))
      obtain ⟨k1, hk1, t1, ht1, hq1⟩ := h
      rcases List.mem_cons.mp hk1 with rfl | hk1
      · rw [ht] at ht1
        cases ht1
        exact absurd hq1 hq
      · exact ⟨k1, hk1, t1, ht1, hq1⟩

/-! ## The admission operations -/

theorem init_eq_of_some (w : World) (reqStorage h : Nat) (hs : w.m.Storage = some h) :
    w.init reqStorage = w := by
  obtain ⟨storage, ⟨st, chan, size⟩⟩ := w
  simp only at hs
  subst hs
  rfl

/-- The method `doTaskWrap` either fails to load the configuration, or runs `f`
in the state where the storage handle is remembered. -/
theorem doTaskWrap_cases (env : Env) (w : World) (reqStorage taskFunc : Nat)
    (f : World → Action → Outcome (String × Option TaskError)) :
    (∃ e, e ≠ QueueBusyError ∧
        Manager.doTaskWrap env w reqStorage taskFunc f
          = .returned ("", some e) (w.init reqStorage)) ∨
      (∃ a, Manager.doTaskWrap env w reqStorage taskFunc f = f (w.init reqStorage) a) := by
  have hw : (match w.m.Storage with
      | none => ({ w with m := { w.m with Storage := some reqStorage } } : World)
      | some _ => w) = w.init reqStorage := by
    cases hs : w.m.Storage with
    | none => simp [World.init, World.target, hs]
    | some h => simpa using (init_eq_of_some w reqStorage h hs).symm
  unfold Manager.doTaskWrap
  simp only [hw]
  cases getConfiguration ((w.init reqStorage).storage reqStorage) with
  | none => exact Or.inl ⟨_, by simp [QueueBusyError], rfl⟩
  | some config =>
    simp only
    split
    · exact Or.inl ⟨_, by simp [QueueBusyError], rfl⟩
    · exact Or.inr ⟨_, rfl⟩

/-- When the configuration loads, `doTaskWrap` runs `f` with the bound timeout. -/
theorem doTaskWrap_loads (env : Env) (w : World) (reqStorage taskFunc : Nat)
    (f : World → Action → Outcome (String × Option TaskError))
    (hg : (w.storage reqStorage).failGetConfiguration = false)
    (hc : (w.storage reqStorage).configLoads env) :
    Manager.doTaskWrap env w reqStorage taskFunc f
      = f (w.init reqStorage)
          { taskFunc := taskFunc, taskTimeoutDuration := taskTimeout env (w.storage reqStorage) } := by
  have hw : (match w.m.Storage with
      | none => ({ w with m := { w.m with Storage := some reqStorage } } : World)
      | some _ => w) = w.init reqStorage := by
    cases hs : w.m.Storage with
    | none => simp [World.init, World.target, hs]
    | some h => simpa using (init_eq_of_some w reqStorage h hs).symm
  have hst : (w.init reqStorage).storage reqStorage = w.storage reqStorage := rfl
  unfold Manager.doTaskWrap
  simp only [hw, hst, getConfiguration, hg, Bool.false_eq_true, if_false, taskTimeout]
  cases hcfg : (w.storage reqStorage).configuration with
  | none => rfl
  | some c =>
    by_cases ht : c.TaskTimeout = ""
    · simp [ht]
    · have := hc c hcfg ht
      obtain ⟨d, hd⟩ := Option.isSome_iff_exists.mp this
      simp [ht, hd]

/-- The method `queueTask`, once the storage handle is set. -/
theorem queueTask_eq (w : World) (a : Action) (uuid : String) (h : Nat)
    (hs : w.m.Storage = some h) :
    Manager.queueTask w a uuid =
      if (w.storage h).failPut = true then .returned ("", some (.putTask uuid)) w
      else if w.m.taskChan.length < w.m.taskChanSize then
        .returned (uuid, none) ((w.put h (newTask uuid)).send { UUID := uuid, Action := a })
      else .blocked (w.put h (newTask uuid)) := by
  obtain ⟨storage, ⟨st, chan, size⟩⟩ := w
  simp only at hs
  subst hs
  unfold Manager.queueTask
  simp only [putTaskIntoStorage]
  by_cases hf : (storage h).failPut = true
  · simp [hf, newTask]
  · rw [if_neg hf, if_neg hf]
    rfl

/-- What `RunTask` returns next to an error is the empty uuid. -/
theorem RunTask_error_uuid (env : Env) (w : World) (reqStorage taskFunc : Nat) (uuid u : String)
    (e : TaskError) (w1 : World)
    (h : Manager.RunTask env w reqStorage taskFunc uuid = .returned (u, some e) w1) : u = "" := by
  unfold Manager.RunTask at h
  rcases doTaskWrap_cases env w reqStorage taskFunc _ with ⟨e1, _, h1⟩ | ⟨a, h1⟩
  · rw [h1] at h
    cases h
    rfl
  · rw [h1] at h
    cases hl : ((w.init reqStorage).storage reqStorage).List with
    | none =>
      rw [hl] at h
      cases h
      rfl
    | some keys =>
      rw [hl] at h
      simp only at h
      cases hb : busyLoop ((w.init reqStorage).storage reqStorage) keys with
      | error err =>
        rw [hb] at h
        cases h
        rfl
      | ok busy =>
        rw [hb] at h
        simp only at h
        cases busy with
        | true =>
          simp only [if_true] at h
          cases h
          rfl
        | false =>
          simp only [Bool.false_eq_true, if_false] at h
          rw [queueTask_eq _ a uuid (w.target reqStorage) rfl] at h
          split at h
          · cases h
            rfl
          · split at h
            · cases h
            · cases h

theorem record_put (w : World) (h : Nat) (task : Task) (k : String) :
    ((w.put h task).storage h).record k
      = if k = task.UUID then some task else (w.storage h).record k := by
  simp only [World.put, Storage.record, Function.update_same]
  exact lookup_putEntry task.UUID task _ k

theorem storage_put_ne (w : World) (h h1 : Nat) (task : Task) (hne : h1 ≠ h) :
    (w.put h task).storage h1 = w.storage h1 := by
  simp only [World.put, Function.update_noteq hne]

/-- Storing a task leaves the configuration and the failure switches of every
storage as they were. -/
theorem put_keeps (w : World) (h h1 : Nat) (task : Task) :
    ((w.put h task).storage h1).failGetConfiguration = (w.storage h1).failGetConfiguration ∧
      ((w.put h task).storage h1).configuration = (w.storage h1).configuration ∧
      ((w.put h task).storage h1).failPut = (w.storage h1).failPut := by
  by_cases hne : h1 = h
  · subst hne
    simp only [World.put, Function.update_same, and_self]
  · rw [storage_put_ne w h h1 task hne]
    exact ⟨rfl, rfl, rfl⟩

/-- The method `RunTask` on a storage whose operations succeed and whose
configuration loads: the busy check, then `queueTask`. -/
theorem RunTask_eq (env : Env) (w : World) (reqStorage taskFunc : Nat) (uuid : String)
    (hreq : (w.storage reqStorage).healthy) (hcfg : (w.storage reqStorage).configLoads env) :
    Manager.RunTask env w reqStorage taskFunc uuid =
      match busyLoop (w.storage reqStorage) ((w.storage reqStorage).tasks.map Prod.fst) with
      | .error err => .returned ("", some err) (w.init reqStorage)
      | .ok busy =>
        if busy then .returned ("", some QueueBusyError) (w.init reqStorage)
        else Manager.queueTask (w.init reqStorage)
          { taskFunc := taskFunc, taskTimeoutDuration := taskTimeout env (w.storage reqStorage) }
          uuid := by
  have hst : (w.init reqStorage).storage reqStorage = w.storage reqStorage := rfl
  unfold Manager.RunTask
  rw [doTaskWrap_loads env w reqStorage taskFunc _ hreq.2.2.2 hcfg]
  simp only [hst, Storage.List, hreq.1, Bool.false_eq_true, if_false]

/-- C5: on a storage whose operations succeed and whose configuration loads,
(1) if no task record is `Queued` or `Running`, the manager's storage accepts
writes, the channel has room and `newTask` draws a non-empty uuid, then
`RunTask` returns that uuid with no error, a record for it with status `Queued`
is persisted (in the manager's storage, which is the given one unless another
was remembered before), and an item with that uuid is appended to the channel;
(2) if some task record is `Queued`, then `RunTask` returns `QueueBusyError`
with an empty uuid, no storage changes and the channel is as before. -/
theorem RunTask_queues_or_busy (env : Env) (w : World) (reqStorage taskFunc : Nat)
    (uuid : String) (hreq : (w.storage reqStorage).healthy)
    (hcfg : (w.storage reqStorage).configLoads env) :
    ((w.storage reqStorage).idle →
      (w.storage (w.target reqStorage)).failPut = false →
      w.m.taskChan.length < w.m.taskChanSize → uuid ≠ "" →
      ∃ u, u ≠ "" ∧
        (Manager.RunTask env w reqStorage taskFunc uuid).val? = some (u, none) ∧
        (∃ task, ((Manager.RunTask env w reqStorage taskFunc uuid).world.storage
            (w.target reqStorage)).record u = some task ∧
          task.UUID = u ∧ task.Status = .queued) ∧
        ∃ a, (Manager.RunTask env w reqStorage taskFunc uuid).world.m.taskChan
          = w.m.taskChan ++ [{ UUID := u, Action := a }]) ∧
    ((w.storage reqStorage).hasQueued →
      (Manager.RunTask env w reqStorage taskFunc uuid).val? = some ("", some QueueBusyError) ∧
      (Manager.RunTask env w reqStorage taskFunc uuid).world.storage = w.storage ∧
      (Manager.RunTask env w reqStorage taskFunc uuid).world.m.taskChan = w.m.taskChan) := by
  have hkeys : ∀ k ∈ (w.storage reqStorage).tasks.map Prod.fst,
      k ∈ (w.storage reqStorage).tasks.map Prod.fst := fun _ h => h
  rw [RunTask_eq env w reqStorage taskFunc uuid hreq hcfg]
  constructor
  · intro hidle hput hroom huuid
    have hb := busyLoop_idle (w.storage reqStorage) _ hreq.2.1 hkeys
      (fun k t h => (hidle k t h).1)
    have hput1 : ¬ ((w.init reqStorage).storage (w.target reqStorage)).failPut = true := by
      show ¬ (w.storage (w.target reqStorage)).failPut = true
      simp [hput]
    have hroom1 : (w.init reqStorage).m.taskChan.length < (w.init reqStorage).m.taskChanSize :=
      hroom
    rw [hb]
    simp only [Bool.false_eq_true, if_false]
    rw [queueTask_eq _ _ uuid (w.target reqStorage) rfl, if_neg hput1, if_pos hroom1]
    refine ⟨uuid, huuid, rfl, ⟨newTask uuid, ?_, rfl, rfl⟩, ⟨_, rfl⟩⟩
    show (((w.init reqStorage).put (w.target reqStorage) (newTask uuid)).storage
      (w.target reqStorage)).record uuid = some (newTask uuid)
    rw [record_put]
    simp [newTask]
  · rintro ⟨k, t, hk, hq⟩
    have hb := busyLoop_queued (w.storage reqStorage) _ hreq.2.1 hkeys
      ⟨k, mem_keys_of_lookup _ k t hk, t, hk, hq⟩
    rw [hb]
    exact ⟨rfl, rfl, rfl⟩

/-- C5, the scenario S1: on a fresh manager and an empty storage the first
`RunTask` queues its task, and the second, before the worker has drained the
first, is refused with `QueueBusyError`. -/
theorem RunTask_queues_or_busy_witness :
    (∃ u, u ≠ "" ∧
      (Manager.RunTask Env.sample (World.fresh 2) 0 0 "u1").val? = some (u, none) ∧
      (∃ task, ((Manager.RunTask Env.sample (World.fresh 2) 0 0 "u1").world.storage
          ((World.fresh 2).target 0)).record u = some task ∧
        task.UUID = u ∧ task.Status = .queued) ∧
      ∃ a, (Manager.RunTask Env.sample (World.fresh 2) 0 0 "u1").world.m.taskChan
        = (World.fresh 2).m.taskChan ++ [{ UUID := u, Action := a }]) ∧
    ((Manager.RunTask Env.sample
        (Manager.RunTask Env.sample (World.fresh 2) 0 0 "u1").world 0 0 "u2").val?
        = some ("", some QueueBusyError) ∧
      (Manager.RunTask Env.sample
        (Manager.RunTask Env.sample (World.fresh 2) 0 0 "u1").world 0 0 "u2").world.storage
        = (Manager.RunTask Env.sample (World.fresh 2) 0 0 "u1").world.storage ∧
      (Manager.RunTask Env.sample
        (Manager.RunTask Env.sample (World.fresh 2) 0 0 "u1").world 0 0 "u2").world.m.taskChan
        = (Manager.RunTask Env.sample (World.fresh 2) 0 0 "u1").world.m.taskChan) :=
  ⟨(RunTask_queues_or_busy Env.sample (World.fresh 2) 0 0 "u1"
      ⟨rfl, rfl, rfl, rfl⟩ (fun c hc => by cases hc)).1
      (fun k t h => by cases h) rfl (by decide) (by decide),
   (RunTask_queues_or_busy Env.sample
      (Manager.RunTask Env.sample (World.fresh 2) 0 0 "u1").world 0 0 "u2"
      ⟨rfl, rfl, rfl, rfl⟩ (fun c hc => by cases hc)).2
      ⟨"u1", newTask "u1", by decide, rfl⟩⟩

/-- C6 at the failing input: the manager's handle is set, the storage holds the
`Running` record `r` and no `Queued` one; `RunTask` is not refused, it returns
the new uuid with no error. -/
theorem RunTask_running_not_busy :
    World.withRunning.m.Storage = some 0 ∧
      (World.withRunning.storage 0).record "r"
        = some { UUID := "r", Status := .running, Reason := "" } ∧
      (Manager.RunTask Env.sample World.withRunning 0 0 "n").val? = some ("n", none) := by
  decide

/-- C7 at the failing input: the manager is fresh, the storage holds a `Queued`
record `q` and a `Running` record `r` from before; the first `RunTask` is
refused with `QueueBusyError` and both records stay as they were. -/
theorem RunTask_first_call_keeps_stale :
    World.withStale.m.Storage = none ∧
      (Manager.RunTask Env.sample World.withStale 0 0 "n").val?
        = some ("", some QueueBusyError) ∧
      ((Manager.RunTask Env.sample World.withStale 0 0 "n").world.storage 0).tasks
        = [("q", { UUID := "q", Status := .queued, Reason := "" }),
           ("r", { UUID := "r", Status := .running, Reason := "" })] := by
  decide

/-- The method `AddTask` when the configuration loads, the manager's storage
accepts writes and the channel has room. -/
theorem AddTask_eq (env : Env) (w : World) (reqStorage taskFunc : Nat) (uuid : String)
    (hg : (w.storage reqStorage).failGetConfiguration = false)
    (hcfg : (w.storage reqStorage).configLoads env)
    (hput : (w.storage (w.target reqStorage)).failPut = false)
    (hroom : w.m.taskChan.length < w.m.taskChanSize) :
    Manager.AddTask env w reqStorage taskFunc uuid
      = .returned (uuid, none)
          (((w.init reqStorage).put (w.target reqStorage) (newTask uuid)).send
            { UUID := uuid,
              Action := { taskFunc := taskFunc,
                          taskTimeoutDuration := taskTimeout env (w.storage reqStorage) } }) := by
  have hput1 : ¬ ((w.init reqStorage).storage (w.target reqStorage)).failPut = true := by
    show ¬ (w.storage (w.target reqStorage)).failPut = true
    simp [hput]
  have hroom1 : (w.init reqStorage).m.taskChan.length < (w.init reqStorage).m.taskChanSize :=
    hroom
  unfold Manager.AddTask
  rw [doTaskWrap_loads env w reqStorage taskFunc _ hg hcfg,
    queueTask_eq _ _ uuid (w.target reqStorage) rfl, if_neg hput1, if_pos hroom1]

theorem addTasks_spec (env : Env) (reqStorage taskFunc : Nat) (us : List String) (w : World)
    (hg : (w.storage reqStorage).failGetConfiguration = false)
    (hcfg : (w.storage reqStorage).configLoads env)
    (hput : (w.storage (w.target reqStorage)).failPut = false)
    (hroom : w.m.taskChan.length + us.length ≤ w.m.taskChanSize) :
    ∃ w1, addTasks env w reqStorage taskFunc us = some (us.map fun u => (u, none), w1) ∧
      (∀ u ∈ us, (w1.storage (w.target reqStorage)).record u = some (newTask u)) ∧
      (∀ k, k ∉ us → (w1.storage (w.target reqStorage)).record k
        = (w.storage (w.target reqStorage)).record k) ∧
      w1.m.taskChan.map (·.UUID) = w.m.taskChan.map (·.UUID) ++ us := by
  induction us generalizing w with
  | nil => exact ⟨w, rfl, by simp, by simp, by simp⟩
  | cons u rest ih =>
    have hroom0 : w.m.taskChan.length < w.m.taskChanSize := by
      simp only [List.length_cons] at hroom
      omega
    have hstep := AddTask_eq env w reqStorage taskFunc u hg hcfg hput hroom0
    obtain ⟨item, hitem⟩ : ∃ item : WorkerTask, item = ⟨u, ⟨taskFunc,
        taskTimeout env (w.storage reqStorage)⟩⟩ := ⟨_, rfl⟩
    rw [← hitem] at hstep
    obtain ⟨w2, hw2⟩ : ∃ w2 : World,
        w2 = ((w.init reqStorage).put (w.target reqStorage) (newTask u)).send item := ⟨_, rfl⟩
    rw [← hw2] at hstep
    have hst2 : w2.storage = ((w.init reqStorage).put (w.target reqStorage) (newTask u)).storage := by
      rw [hw2]; rfl
    have htgt : w2.target reqStorage = w.target reqStorage := by rw [hw2]; rfl
    have hkeep := put_keeps (w.init reqStorage) (w.target reqStorage)
    have hg2 : (w2.storage reqStorage).failGetConfiguration = false := by
      rw [hst2, (hkeep reqStorage (newTask u)).1]; exact hg
    have hcfg2 : (w2.storage reqStorage).configLoads env := by
      intro c hc
      rw [hst2, (hkeep reqStorage (newTask u)).2.1] at hc
      exact hcfg c hc
    have hput2 : (w2.storage (w2.target reqStorage)).failPut = false := by
      rw [htgt, hst2, (hkeep (w.target reqStorage) (newTask u)).2.2]; exact hput
    have hchan2 : w2.m.taskChan = w.m.taskChan ++ [item] := by rw [hw2]; rfl
    have hroom2 : w2.m.taskChan.length + rest.length ≤ w2.m.taskChanSize := by
      have hsize : w2.m.taskChanSize = w.m.taskChanSize := by rw [hw2]; rfl
      rw [hchan2, hsize]
      simp only [List.length_append, List.length_cons, List.length_nil] at hroom ⊢
      omega
    obtain ⟨w1, h1, hrec, hframe, hchan⟩ := ih w2 hg2 hcfg2 hput2 hroom2
    rw [htgt] at hrec hframe
    have hrec2 : ∀ k, (w2.storage (w.target reqStorage)).record k
        = if k = u then some (newTask u) else (w.storage (w.target reqStorage)).record k := by
      intro k
      rw [hst2, record_put]
      rfl
    refine ⟨w1, ?_, ?_, ?_, ?_⟩
    · simp only [addTasks, hstep, h1, List.map_cons]
    · intro k hk
      by_cases hkr : k ∈ rest
      · exact hrec k hkr
      · have hku : k = u := by
          rcases List.mem_cons.mp hk with h | h
          · exact h
          · exact absurd h hkr
        rw [hframe k hkr, hrec2 k, if_pos hku, hku]
    · intro k hk
      have hkr : k ∉ rest := fun h => hk (List.mem_cons_of_mem _ h)
      have hku : ¬ k = u := fun h => hk (by simp [h])
      rw [hframe k hkr, hrec2 k, if_neg hku]
    · rw [hchan, hchan2, hitem]
      simp

/-- C8: when the configuration loads and the manager's storage accepts writes,
`n` successive `AddTask` calls that fit into the channel (`n` plus the items
already waiting is at most its capacity) all return their non-empty uuid with no
error, no busy check on the way, after them every one of the uuids is persisted
with status `Queued`, and the channel holds, after what was waiting, items with
the uuids `u1, ..., un` in the order of the calls. -/
theorem AddTask_fifo (env : Env) (w : World) (reqStorage taskFunc : Nat) (us : List String)
    (hg : (w.storage reqStorage).failGetConfiguration = false)
    (hcfg : (w.storage reqStorage).configLoads env)
    (hput : (w.storage (w.target reqStorage)).failPut = false)
    (hroom : w.m.taskChan.length + us.length ≤ w.m.taskChanSize)
    (hne : ∀ u ∈ us, u ≠ "") :
    ∃ w1, addTasks env w reqStorage taskFunc us = some (us.map fun u => (u, none), w1) ∧
      (∀ u ∈ us, u ≠ "" ∧ ∃ task, (w1.storage (w.target reqStorage)).record u = some task ∧
        task.UUID = u ∧ task.Status = .queued) ∧
      w1.m.taskChan.map (·.UUID) = w.m.taskChan.map (·.UUID) ++ us := by
  obtain ⟨w1, h1, hrec, _, hchan⟩ := addTasks_spec env reqStorage taskFunc us w hg hcfg hput hroom
  exact ⟨w1, h1, fun u hu => ⟨hne u hu, newTask u, hrec u hu, rfl, rfl⟩, hchan⟩

/-- C8, the scenario S4: two `AddTask` calls on a fresh manager with a channel
of capacity 2 return `a` and `b`, both `Queued`, and the channel holds `a`
before `b`. -/
theorem AddTask_fifo_witness :
    ∃ w1, addTasks Env.sample (World.fresh 2) 0 0 ["a", "b"]
        = some (["a", "b"].map fun u => (u, none), w1) ∧
      (∀ u ∈ ["a", "b"], u ≠ "" ∧
        ∃ task, (w1.storage ((World.fresh 2).target 0)).record u = some task ∧
          task.UUID = u ∧ task.Status = .queued) ∧
      w1.m.taskChan.map (·.UUID) = (World.fresh 2).m.taskChan.map (·.UUID) ++ ["a", "b"] :=
  AddTask_fifo Env.sample (World.fresh 2) 0 0 ["a", "b"] rfl (fun c hc => by cases hc) rfl
    (by decide) (by decide)

/-- C9: `AddOptionalTask` returns `(u, true, nil)` exactly when `RunTask` returns
`(u, nil)`; it returns the empty uuid, `false` and `nil` exactly when `RunTask`
returns `QueueBusyError`; for any other error `e` it returns the empty uuid,
`false` and `e` exactly when `RunTask` returns `e`; it blocks exactly when
`RunTask` blocks; the state left is that of `RunTask` in each case. -/
theorem AddOptionalTask_wraps_RunTask (env : Env) (w : World) (reqStorage taskFunc : Nat)
    (uuid : String) :
    (∀ u w1, Manager.AddOptionalTask env w reqStorage taskFunc uuid
        = .returned (u, true, none) w1 ↔
      Manager.RunTask env w reqStorage taskFunc uuid = .returned (u, none) w1) ∧
    (∀ w1, Manager.AddOptionalTask env w reqStorage taskFunc uuid
        = .returned ("", false, none) w1 ↔
      ∃ u, Manager.RunTask env w reqStorage taskFunc uuid
        = .returned (u, some QueueBusyError) w1) ∧
    (∀ e w1, e ≠ QueueBusyError →
      (Manager.AddOptionalTask env w reqStorage taskFunc uuid
        = .returned ("", false, some e) w1 ↔
      ∃ u, Manager.RunTask env w reqStorage taskFunc uuid = .returned (u, some e) w1)) ∧
    (∀ w1, Manager.AddOptionalTask env w reqStorage taskFunc uuid = .blocked w1 ↔
      Manager.RunTask env w reqStorage taskFunc uuid = .blocked w1) := by
  have huuid := RunTask_error_uuid env w reqStorage taskFunc uuid
  unfold Manager.AddOptionalTask
  cases hR : Manager.RunTask env w reqStorage taskFunc uuid with
  | blocked w2 => simp
  | returned val w2 =>
    obtain ⟨u2, e2⟩ := val
    cases e2 with
    | none => simp
    | some e =>
      have hu2 : u2 = "" := huuid u2 e w2 hR
      subst hu2
      by_cases he : e = QueueBusyError
      · subst he
        refine ⟨?_, ?_, ?_, ?_⟩
        · simp
        · simp
        · intro e1 w1 he1
          have : ¬ QueueBusyError = e1 := fun h => he1 h.symm
          simp [this]
        · simp
      · refine ⟨?_, ?_, ?_, ?_⟩
        · simp [he]
        · have : ¬ e = QueueBusyError := he
          simp [he]
        · intro e1 w1 _
          simp [he]
        · simp [he]

/-! ## At most one `Queued` record -/

/-- What `RunTask` leaves: the state with the handle remembered, or that state
with the new task stored (and perhaps sent), and then only when the busy loop
ran over all records and found none `Queued`. -/
theorem RunTask_world (env : Env) (w : World) (reqStorage taskFunc : Nat) (uuid : String) :
    (Manager.RunTask env w reqStorage taskFunc uuid).world = w.init reqStorage ∨
      (busyLoop (w.storage reqStorage) ((w.storage reqStorage).tasks.map Prod.fst) = .ok false ∧
        ((Manager.RunTask env w reqStorage taskFunc uuid).world.storage
            = ((w.init reqStorage).put (w.target reqStorage) (newTask uuid)).storage ∧
          (Manager.RunTask env w reqStorage taskFunc uuid).world.m.Storage
            = some (w.target reqStorage))) := by
  unfold Manager.RunTask
  rcases doTaskWrap_cases env w reqStorage taskFunc _ with ⟨e1, _, h1⟩ | ⟨a, h1⟩
  · rw [h1]
    exact Or.inl rfl
  · rw [h1]
    have hst : (w.init reqStorage).storage reqStorage = w.storage reqStorage := rfl
    simp only [hst, Storage.List]
    by_cases hl : (w.storage reqStorage).failList = true
    · simp only [hl, if_true]
      exact Or.inl rfl
    · have hl1 : (w.storage reqStorage).failList = false := by simpa using hl
      simp only [hl1, Bool.false_eq_true, if_false]
      cases hb : busyLoop (w.storage reqStorage) ((w.storage reqStorage).tasks.map Prod.fst) with
      | error err => exact Or.inl rfl
      | ok busy =>
        cases busy with
        | true => exact Or.inl rfl
        | false =>
          simp only [Bool.false_eq_true, if_false]
          rw [queueTask_eq _ a uuid (w.target reqStorage) rfl]
          split
          · exact Or.inl rfl
          · split
            · exact Or.inr ⟨trivial, rfl, rfl⟩
            · exact Or.inr ⟨trivial, rfl, rfl⟩

theorem AddOptionalTask_world (env : Env) (w : World) (reqStorage taskFunc : Nat)
    (uuid : String) :
    (Manager.AddOptionalTask env w reqStorage taskFunc uuid).world
      = (Manager.RunTask env w reqStorage taskFunc uuid).world := by
  unfold Manager.AddOptionalTask
  cases Manager.RunTask env w reqStorage taskFunc uuid with
  | blocked w2 => rfl
  | returned val w2 =>
    obtain ⟨u2, e2⟩ := val
    cases e2 with
    | none => rfl
    | some e =>
      simp only
      split <;> rfl

/-- A `RunTask` that passes the manager's own storage keeps "at most one record
is `Queued`": it stores a task only after it has found no record `Queued`. -/
theorem RunTask_keeps_atMostOneQueued (env : Env) (w : World) (st taskFunc : Nat)
    (uuid : String) (hm : w.m.Storage = none ∨ w.m.Storage = some st)
    (h : (w.storage st).atMostOneQueued) :
    ((Manager.RunTask env w st taskFunc uuid).world.m.Storage = none ∨
        (Manager.RunTask env w st taskFunc uuid).world.m.Storage = some st) ∧
      ((Manager.RunTask env w st taskFunc uuid).world.storage st).atMostOneQueued := by
  have htgt : w.target st = st := by
    rcases hm with h0 | h0 <;> simp [World.target, h0]
  rcases RunTask_world env w st taskFunc uuid with h1 | ⟨hb, h1, h2⟩
  · rw [h1]
    refine ⟨Or.inr ?_, h⟩
    show some (w.target st) = some st
    rw [htgt]
  · rw [h1, h2, htgt]
    refine ⟨Or.inr rfl, ?_⟩
    have hold := busyLoop_false (w.storage st) _ hb
    have hnew : ∀ k t, (((w.init st).put st (newTask uuid)).storage st).record k = some t →
        t.Status = .queued → k = uuid := by
      intro k t hk hq
      rw [record_put] at hk
      by_cases hku : k = (newTask uuid).UUID
      · exact hku
      · rw [if_neg hku] at hk
        exact absurd hq (hold k (mem_keys_of_lookup _ k t hk) t hk)
    intro k1 k2 t1 t2 hk1 hk2 hq1 hq2
    rw [hnew k1 t1 hk1 hq1, hnew k2 t2 hk2 hq2]

theorem Call_run_keeps_atMostOneQueued (env : Env) (w : World) (st : Nat) (c : Call)
    (hc : c.checksBusyOn st) (hm : w.m.Storage = none ∨ w.m.Storage = some st)
    (h : (w.storage st).atMostOneQueued) :
    ((c.run env w).1.m.Storage = none ∨ (c.run env w).1.m.Storage = some st) ∧
      ((c.run env w).1.storage st).atMostOneQueued := by
  cases c with
  | AddTask s f u => exact absurd hc (by simp [Call.checksBusyOn])
  | RunTask s f u =>
    have hs : s = st := hc
    subst hs
    have key := RunTask_keeps_atMostOneQueued env w s f u hm h
    have hw : (Call.run env w (.RunTask s f u)).1 = (Manager.RunTask env w s f u).world := by
      simp only [Call.run]
      cases Manager.RunTask env w s f u <;> rfl
    rw [hw]
    exact key
  | AddOptionalTask s f u =>
    have hs : s = st := hc
    subst hs
    have key := RunTask_keeps_atMostOneQueued env w s f u hm h
    have hw : (Call.run env w (.AddOptionalTask s f u)).1
        = (Manager.RunTask env w s f u).world := by
      rw [← AddOptionalTask_world]
      simp only [Call.run]
      cases Manager.AddOptionalTask env w s f u <;> rfl
    rw [hw]
    exact key

theorem runCalls_keeps_atMostOneQueued (env : Env) (st : Nat) (calls : List Call) (w : World)
    (hcalls : ∀ c ∈ calls, c.checksBusyOn st)
    (hm : w.m.Storage = none ∨ w.m.Storage = some st)
    (h : (w.storage st).atMostOneQueued) :
    ((runCalls env w calls).storage st).atMostOneQueued := by
  induction calls generalizing w with
  | nil => exact h
  | cons c rest ih =>
    have key := Call_run_keeps_atMostOneQueued env w st c (hcalls c (List.mem_cons_self _ _)) hm h
    unfold runCalls
    cases hr : c.run env w with
    | mk w1 returned =>
      rw [hr] at key
      cases returned with
      | true => exact ih w1 (fun c1 h1 => hcalls c1 (List.mem_cons_of_mem _ h1)) key.1 key.2
      | false => exact key.2

/-- C10 (as amended): starting from an empty store and a manager that has no
storage handle yet, after every finite sequence of `RunTask` and
`AddOptionalTask` calls that pass this store, no worker draining in between, at
most one persisted task record is `Queued`. -/
theorem admission_at_most_one_queued (env : Env) (w : World) (st : Nat) (calls : List Call)
    (hempty : (w.storage st).tasks = [])
    (hm : w.m.Storage = none)
    (hcalls : ∀ c ∈ calls, c.checksBusyOn st) :
    ((runCalls env w calls).storage st).atMostOneQueued := by
  apply runCalls_keeps_atMostOneQueued env st calls w hcalls (Or.inl hm)
  intro k1 k2 t1 t2 hk1
  simp [Storage.record, hempty] at hk1

/-- C10, on the calls `RunTask`, `AddOptionalTask`, `RunTask` from an empty
store. -/
theorem admission_at_most_one_queued_witness :
    ((runCalls Env.sample (World.fresh 2)
      [.RunTask 0 0 "a", .AddOptionalTask 0 0 "b", .RunTask 0 0 "c"]).storage 0).atMostOneQueued :=
  admission_at_most_one_queued Env.sample (World.fresh 2) 0 _ rfl rfl
    (by
      intro c hc
      simp only [List.mem_cons, List.mem_singleton, List.not_mem_nil, or_false] at hc
      rcases hc with rfl | rfl | rfl <;> exact rfl)

/-- C10 as stated fails: from an empty store two `AddTask` calls leave the two
records `a` and `b`, both `Queued`. -/
theorem AddTask_two_queued_counterexample :
    (World.fresh 2).m.Storage = none ∧ ((World.fresh 2).storage 0).tasks = [] ∧
      ((runCalls Env.sample (World.fresh 2) [.AddTask 0 0 "a", .AddTask 0 0 "b"]).storage 0).tasks
        = [("a", { UUID := "a", Status := .queued, Reason := "" }),
           ("b", { UUID := "b", Status := .queued, Reason := "" })] ∧
      ¬ ((runCalls Env.sample (World.fresh 2)
          [.AddTask 0 0 "a", .AddTask 0 0 "b"]).storage 0).atMostOneQueued := by
  refine ⟨rfl, rfl, by decide, fun h => ?_⟩
  have hab := h "a" "b" { UUID := "a", Status := .queued, Reason := "" }
    { UUID := "b", Status := .queued, Reason := "" } (by decide) (by decide) rfl rfl
  exact absurd hab (by decide)

/-! ## The publish step -/

theorem publishCalls_append (gitTag : Bytes) (a b : List TarNext) :
    publishCalls gitTag (a ++ b) = publishCalls gitTag a ++ publishCalls gitTag b := by
  induction a with
  | nil => rfl
  | cons item rest ih =>
    cases item with
    | error err => simpa [publishCalls] using ih
    | header hdr =>
      by_cases hd : hdr.Typeflag = tarTypeDir
      · simpa [publishCalls, hd] using ih
      · simp [publishCalls, hd, ih]

/-- While headers are read and the publisher accepts, the loop makes exactly the
due calls and goes on with the rest of the tar. -/
theorem publishLoop_append (p : Publisher) (gitTag : Bytes) (done rest : List TarNext)
    (calls : List PublisherCall) (hdone : allHeaders done)
    (hacc : p.accepts calls.length (publishCalls gitTag done).length) :
    publishLoop p gitTag calls (done ++ rest)
      = publishLoop p gitTag (calls ++ publishCalls gitTag done) rest := by
  induction done generalizing calls with
  | nil => simp [publishCalls]
  | cons item more ih =>
    have hmore : allHeaders more := fun x hx => hdone x (List.mem_cons_of_mem _ hx)
    obtain ⟨hdr, rfl⟩ := hdone item (List.mem_cons_self _ _)
    by_cases hd : hdr.Typeflag = tarTypeDir
    · have hacc1 : p.accepts calls.length (publishCalls gitTag more).length := by
        simpa [publishCalls, hd] using hacc
      simp only [List.cons_append, publishLoop, publishCalls, hd, ne_eq, not_true_eq_false,
        if_false]
      simpa using ih calls hmore hacc1
    · have hlen : (publishCalls gitTag (.header hdr :: more)).length
          = (publishCalls gitTag more).length + 1 := by
        simp [publishCalls, hd]
      have h0 : p.publishErr calls.length = none := by
        have := hacc 0 (by rw [hlen]; omega)
        simpa using this
      have hacc1 : p.accepts
          (calls ++ [PublisherCall.PublishReleaseTarget gitTag hdr.Name hdr.content]).length
          (publishCalls gitTag more).length := by
        intro i hi
        have := hacc (i + 1) (by rw [hlen]; omega)
        simp only [List.length_append, List.length_cons, List.length_nil]
        rw [← this]
        congr 1
        omega
      simp only [List.cons_append, publishLoop, publishCalls, hd, ne_eq, not_false_eq_true,
        if_true, h0]
      have key := ih _ hmore hacc1
      simpa using key

/-- C11: (1) when every item read from the artifact tar is a header and the
publisher accepts every target, the job calls `PublishReleaseTarget` once for
each non-directory entry and for no directory entry, with the git tag and the
name of the entry, in tar order, then `Commit` once, after all of them, and
returns the error of `Commit`; (2) when reading a header fails, the calls made
are those due for the entries before it, `Commit` is not among them, and the job
returns an error; (3) when publishing an entry fails, the calls made are those
due for the entries before it and the failed one, `Commit` is not among them,
and the job returns an error. -/
theorem publishArtifacts_calls (p : Publisher) (gitTag : Bytes) (tar : List TarNext) :
    (allHeaders tar → p.accepts 0 (publishCalls gitTag tar).length →
      publishArtifacts p gitTag tar
        = (p.commitErr.map ReleaseError.commit, publishCalls gitTag tar ++ [.Commit])) ∧
    (∀ done err rest, tar = done ++ .error err :: rest → allHeaders done →
      p.accepts 0 (publishCalls gitTag done).length →
      publishArtifacts p gitTag tar = (some (.readHeader err), publishCalls gitTag done)) ∧
    (∀ done hdr rest err, tar = done ++ .header hdr :: rest → allHeaders done →
      hdr.Typeflag ≠ tarTypeDir →
      p.accepts 0 (publishCalls gitTag done).length →
      p.publishErr (publishCalls gitTag done).length = some err →
      publishArtifacts p gitTag tar
        = (some (.publishTarget hdr.Name err),
            publishCalls gitTag done ++ [.PublishReleaseTarget gitTag hdr.Name hdr.content])) ∧
    PublisherCall.Commit ∉ publishCalls gitTag tar := by
  refine ⟨?_, ?_, ?_, ?_⟩
  · intro hall hacc
    have h := publishLoop_append p gitTag tar [] [] hall (by simpa using hacc)
    simp only [List.append_nil, List.nil_append] at h
    unfold publishArtifacts
    rw [h]
    cases hc : p.commitErr <;> simp [publishLoop, hc]
  · intro done err rest htar hall hacc
    have h := publishLoop_append p gitTag done (.error err :: rest) [] hall (by simpa using hacc)
    unfold publishArtifacts
    rw [htar, h]
    simp [publishLoop]
  · intro done hdr rest err htar hall hd hacc herr
    have h := publishLoop_append p gitTag done (.header hdr :: rest) [] hall (by simpa using hacc)
    unfold publishArtifacts
    rw [htar, h]
    simp [publishLoop, hd, herr]
  · induction tar with
    | nil => simp [publishCalls]
    | cons item rest ih =>
      cases item with
      | error err => simpa [publishCalls] using ih
      | header hdr =>
        by_cases hd : hdr.Typeflag = tarTypeDir
        · simpa [publishCalls, hd] using ih
        · simpa [publishCalls, hd] using ih

/-- C11, on three tars and the tag `v1`: the entries `bin/`, `bin/trdl`, `README`
with an accepting publisher; `bin/trdl`, a header that cannot be read, `README`;
and `bin/trdl`, `bin/`, `README`, `bin/trdl` with a publisher that rejects its
second target. -/
theorem publishArtifacts_calls_witness :
    publishArtifacts Publisher.accepting (lit "v1")
        [.header TarEntry.binDir, .header TarEntry.binTrdl, .header TarEntry.readme]
      = (none, [.PublishReleaseTarget (lit "v1") (lit "bin/trdl") [1, 2],
                .PublishReleaseTarget (lit "v1") (lit "README") [3], .Commit]) ∧
    publishArtifacts Publisher.accepting (lit "v1")
        [.header TarEntry.binTrdl, .error (lit "bad"), .header TarEntry.readme]
      = (some (.readHeader (lit "bad")),
          [.PublishReleaseTarget (lit "v1") (lit "bin/trdl") [1, 2]]) ∧
    publishArtifacts Publisher.rejectingSecond (lit "v1")
        [.header TarEntry.binTrdl, .header TarEntry.binDir, .header TarEntry.readme,
         .header TarEntry.binTrdl]
      = (some (.publishTarget (lit "README") (lit "no")),
          [.PublishReleaseTarget (lit "v1") (lit "bin/trdl") [1, 2],
           .PublishReleaseTarget (lit "v1") (lit "README") [3]]) :=
  ⟨(publishArtifacts_calls Publisher.accepting (lit "v1")
      [.header TarEntry.binDir, .header TarEntry.binTrdl, .header TarEntry.readme]).1
      (by
        intro item h
        simp only [List.mem_cons, List.mem_singleton, List.not_mem_nil, or_false] at h
        rcases h with rfl | rfl | rfl <;> exact ⟨_, rfl⟩)
      (by decide),
   (publishArtifacts_calls Publisher.accepting (lit "v1")
      [.header TarEntry.binTrdl, .error (lit "bad"), .header TarEntry.readme]).2.1
      [.header TarEntry.binTrdl] (lit "bad") [.header TarEntry.readme] rfl
      (by
        intro item h
        simp only [List.mem_singleton] at h
        exact ⟨_, h⟩)
      (by decide),
   (publishArtifacts_calls Publisher.rejectingSecond (lit "v1")
      [.header TarEntry.binTrdl, .header TarEntry.binDir, .header TarEntry.readme,
       .header TarEntry.binTrdl]).2.2.1
      [.header TarEntry.binTrdl, .header TarEntry.binDir] TarEntry.readme
      [.header TarEntry.binTrdl] (lit "no") rfl
      (by
        intro item h
        simp only [List.mem_cons, List.mem_singleton, List.not_mem_nil, or_false] at h
        rcases h with rfl | rfl <;> exact ⟨_, rfl⟩)
      (by decide) (by decide) (by decide)⟩

/-! ## Buffered bytes and cancellation: the code at the inputs of C12 and C13 -/

/-- C12 at the failing input `START · "AQ" · STOP`: the `A` starts a stop match,
the `Q` breaks it, both stay buffered, and the stop sentinel follows at once; the
extractor returns from the full stop match with nothing written. -/
theorem readTar_drops_buffered_bytes :
    byteLoop ReadVars.init Writer.pipe
        (artifactsTarStartReadCode ++ lit "AQ" ++ artifactsTarStopReadCode)
      = .ret none { written := [], room := none } ∧
    readTarFromImageBuildResponse
        [streamMsg (artifactsTarStartReadCode ++ lit "AQ" ++ artifactsTarStopReadCode)]
        Writer.pipe
      = (none, { written := [], room := none }) := by
  decide

/-- C13 at the failing input: the parent context is canceled while the task
function runs, and the task function returns an error of its own; the wrapped
closure returns that error, not `ErrContextCanceled`. -/
theorem workerTaskFunc_returns_own_error :
    workerTaskFunc (fun _ _ => some (.business "error")) 600000000000 (some 0)
        { canceled := true, timeout := none }
      = some (.business "error") ∧
    ActionError.business "error" ≠ ActionError.ErrContextCanceled := by
  decide

/-! ## The sentinels stay out of the Dockerfile -/

/-- A text of hexadecimal digits that occurs in `a · x · b`, `x` not such a
digit, occurs in `a` or in `b`. -/
theorem occurs_split (s a b : Bytes) (x : Nat) (hs : ∀ c ∈ s, isHexDigit c = true)
    (hx : isHexDigit x = false) (h : s <:+: a ++ ([x] ++ b)) : s <:+: a ∨ s <:+: b := by
  have hxs : x ∉ s := fun hmem => by
    have := hs x hmem
    rw [hx] at this
    cases this
  obtain ⟨p, q, hpq⟩ := h
  have hpq1 : (p ++ s) ++ q = a ++ x :: b := by simpa using hpq
  rcases List.append_eq_append_iff.mp hpq1 with ⟨a1, ha, _⟩ | ⟨c1, hc, hb⟩
  · exact Or.inl ⟨p, a1, ha.symm⟩
  · cases c1 with
    | nil => exact Or.inl ⟨p, [], by simpa using hc⟩
    | cons y c2 =>
      obtain ⟨hy, hb2⟩ := List.cons.inj hb
      subst hy
      rcases List.append_eq_append_iff.mp hc with ⟨a2, _, hs2⟩ | ⟨c3, _, hx3⟩
      · exact absurd (by rw [hs2]; simp) hxs
      · cases c3 with
        | nil => exact absurd (by rw [← (by simpa using hx3 : x :: c2 = s)]; simp) hxs
        | cons z c4 =>
          obtain ⟨_, hc2⟩ := List.cons.inj hx3
          exact Or.inr ⟨c4, q, by rw [hb2, hc2]; rfl⟩

/-- The Dockerfile cut at bytes that are not hexadecimal digits: the space
after `FROM` and after each `RUN`, and the newlines. -/
theorem generateServiceDockerfile_segments (fromImage : Bytes) (runCommands : List Bytes) :
    generateServiceDockerfile fromImage runCommands
      = lit "FROM" ++ ([32] ++ (fromImage ++ ([10] ++ (dockerfileMiddle ++ ([10]
          ++ dockerfileTail runCommands))))) := by
  have htail : ∀ cmds : List Bytes,
      (cmds.map fun c => lit "RUN " ++ c ++ lit "\n").flatten ++ dockerfileFinalLine
        = dockerfileTail cmds := by
    intro cmds
    induction cmds with
    | nil => simp [dockerfileTail]
    | cons c rest ih =>
      have h1 : lit "RUN " = lit "RUN" ++ [32] := by decide
      have h2 : lit "\n" = [10] := by decide
      rw [List.map_cons, List.flatten_cons, List.append_assoc, ih, h1, h2]
      simp only [dockerfileTail, List.append_assoc]
  rw [← htail]
  simp only [generateServiceDockerfile, foldl_addLine]
  generalize (runCommands.map fun c => lit "RUN " ++ c ++ lit "\n").flatten = cmdLines
  simp only [addLineFunc, List.nil_append, List.append_assoc]
  rfl

theorem dockerfileTail_free (s : Bytes) (hs : ∀ c ∈ s, isHexDigit c = true)
    (hrun : ¬ s <:+: lit "RUN") (hfin : ¬ s <:+: dockerfileFinalLine)
    (runCommands : List Bytes) (hcmds : ∀ c ∈ runCommands, ¬ s <:+: c) :
    ¬ s <:+: dockerfileTail runCommands := by
  induction runCommands with
  | nil => exact hfin
  | cons c rest ih =>
    intro h
    rcases occurs_split s _ _ 32 hs (by decide) h with h1 | h1
    · exact hrun h1
    · rcases occurs_split s _ _ 10 hs (by decide) h1 with h2 | h2
      · exact hcmds c (List.mem_cons_self _ _) h2
      · exact ih (fun c1 hc1 => hcmds c1 (List.mem_cons_of_mem _ hc1)) h2

/-- A text of hexadecimal digits that occurs in none of the fixed parts of the
Dockerfile, nor in the image name, nor in a command, does not occur in the
Dockerfile. -/
theorem generateServiceDockerfile_free (s : Bytes) (hs : ∀ c ∈ s, isHexDigit c = true)
    (hfrom : ¬ s <:+: lit "FROM") (hmid : ¬ s <:+: dockerfileMiddle)
    (hrun : ¬ s <:+: lit "RUN") (hfin : ¬ s <:+: dockerfileFinalLine)
    (fromImage : Bytes) (runCommands : List Bytes) (himg : ¬ s <:+: fromImage)
    (hcmds : ∀ c ∈ runCommands, ¬ s <:+: c) :
    ¬ s <:+: generateServiceDockerfile fromImage runCommands := by
  rw [generateServiceDockerfile_segments]
  intro h
  rcases occurs_split s _ _ 32 hs (by decide) h with h1 | h1
  · exact hfrom h1
  · rcases occurs_split s _ _ 10 hs (by decide) h1 with h2 | h2
    · exact himg h2
    · rcases occurs_split s _ _ 10 hs (by decide) h2 with h3 | h3
      · exact hmid h3
      · exact dockerfileTail_free s hs hrun hfin runCommands hcmds h3

theorem dockerfileFinalLine_suffix (runCommands : List Bytes) :
    dockerfileFinalLine <:+ dockerfileTail runCommands := by
  induction runCommands with
  | nil => exact List.suffix_refl _
  | cons c rest ih =>
    obtain ⟨t, ht⟩ := ih
    exact ⟨lit "RUN" ++ ([32] ++ (c ++ ([10] ++ t))), by
      simp only [dockerfileTail, List.append_assoc, ht]⟩

/-- What occurs in the last line occurs in the Dockerfile. -/
theorem occurs_of_finalLine (s fromImage : Bytes) (runCommands : List Bytes)
    (h : s <:+: dockerfileFinalLine) :
    s <:+: generateServiceDockerfile fromImage runCommands := by
  rw [generateServiceDockerfile_segments]
  obtain ⟨t, ht⟩ := dockerfileFinalLine_suffix runCommands
  obtain ⟨p, q, hpq⟩ := h
  refine ⟨lit "FROM" ++ ([32] ++ (fromImage ++ ([10] ++ (dockerfileMiddle ++ ([10] ++ t)))))
    ++ p, q, ?_⟩
  rw [← ht, ← hpq]
  simp only [List.append_assoc]

/-- C14: each sentinel is 64 upper-case hexadecimal digits, the two differ, and
for every `from_image` and command list that do not contain a sentinel the
Dockerfile contains neither the start nor the stop sentinel as a contiguous
substring, while the base64 text of each occurs in it. -/
theorem generateServiceDockerfile_no_sentinel (fromImage : Bytes) (runCommands : List Bytes)
    (himg : ¬ artifactsTarStartReadCode <:+: fromImage ∧
      ¬ artifactsTarStopReadCode <:+: fromImage)
    (hcmds : ∀ c ∈ runCommands, ¬ artifactsTarStartReadCode <:+: c ∧
      ¬ artifactsTarStopReadCode <:+: c) :
    (artifactsTarStartReadCode.length = 64 ∧ artifactsTarStopReadCode.length = 64 ∧
      (∀ c ∈ artifactsTarStartReadCode, isHexDigit c = true) ∧
      (∀ c ∈ artifactsTarStopReadCode, isHexDigit c = true) ∧
      artifactsTarStartReadCode ≠ artifactsTarStopReadCode) ∧
    ¬ artifactsTarStartReadCode <:+: generateServiceDockerfile fromImage runCommands ∧
    ¬ artifactsTarStopReadCode <:+: generateServiceDockerfile fromImage runCommands ∧
    base64Encode artifactsTarStartReadCode
      <:+: generateServiceDockerfile fromImage runCommands ∧
    base64Encode artifactsTarStopReadCode
      <:+: generateServiceDockerfile fromImage runCommands := by
  have hstart : ∀ c ∈ artifactsTarStartReadCode, isHexDigit c = true := by decide
  have hstop : ∀ c ∈ artifactsTarStopReadCode, isHexDigit c = true := by decide
  refine ⟨⟨by decide, by decide, hstart, hstop, by decide⟩, ?_, ?_, ?_, ?_⟩
  · exact generateServiceDockerfile_free _ hstart (by decide) (by decide) (by decide) (by decide)
      fromImage runCommands himg.1 (fun c hc => (hcmds c hc).1)
  · exact generateServiceDockerfile_free _ hstop (by decide) (by decide) (by decide) (by decide)
      fromImage runCommands himg.2 (fun c hc => (hcmds c hc).2)
  · exact occurs_of_finalLine _ fromImage runCommands (by decide)
  · exact occurs_of_finalLine _ fromImage runCommands (by decide)

/-- C14, on the image `golang:latest` and the commands `make`, `make test`. -/
theorem generateServiceDockerfile_no_sentinel_witness :
    (artifactsTarStartReadCode.length = 64 ∧ artifactsTarStopReadCode.length = 64 ∧
      (∀ c ∈ artifactsTarStartReadCode, isHexDigit c = true) ∧
      (∀ c ∈ artifactsTarStopReadCode, isHexDigit c = true) ∧
      artifactsTarStartReadCode ≠ artifactsTarStopReadCode) ∧
    ¬ artifactsTarStartReadCode
      <:+: generateServiceDockerfile (lit "golang:latest") [lit "make", lit "make test"] ∧
    ¬ artifactsTarStopReadCode
      <:+: generateServiceDockerfile (lit "golang:latest") [lit "make", lit "make test"] ∧
    base64Encode artifactsTarStartReadCode
      <:+: generateServiceDockerfile (lit "golang:latest") [lit "make", lit "make test"] ∧
    base64Encode artifactsTarStopReadCode
      <:+: generateServiceDockerfile (lit "golang:latest") [lit "make", lit "make test"] :=
  generateServiceDockerfile_no_sentinel (lit "golang:latest") [lit "make", lit "make test"]
    (by decide) (by decide)

/-! ## What the extractor writes -/

/-- A `Write` adds to the writer a first part of the bytes it is given, all of
them when it succeeds. -/
theorem write_spec (w : Writer) (p : Bytes) :
    ∃ q, (w.Write p).1.written = w.written ++ q ∧ q <+: p ∧
      ((w.Write p).2 = true → q = p) := by
  obtain ⟨written, room⟩ := w
  cases room with
  | none => exact ⟨p, rfl, List.prefix_refl p, fun _ => rfl⟩
  | some r =>
    by_cases hr : p.length ≤ r
    · refine ⟨p, ?_, List.prefix_refl p, fun _ => rfl⟩
      simp [Writer.Write, hr]
    · refine ⟨p.take r, ?_, List.take_prefix r p, ?_⟩
      · simp [Writer.Write, hr]
      · simp [Writer.Write, hr]

theorem emitted_mono (w0 : Bytes) (w : Writer) (consumed more : Bytes)
    (h : Emitted w0 w consumed) : Emitted w0 w (consumed ++ more) := by
  obtain ⟨out, hw, hout⟩ := h
  refine ⟨out, hw, ?_⟩
  rcases hout with h0 | ⟨pre, rest, hc, t, ht⟩
  · exact Or.inl h0
  · exact Or.inr ⟨pre, rest ++ more, by rw [hc]; simp only [List.append_assoc],
      t ++ more, by rw [← ht]; simp only [List.append_assoc]⟩

theorem phaseInv_emitted (w0 : Bytes) (v : ReadVars) (w : Writer) (consumed : Bytes)
    (h : PhaseInv w0 v w consumed) : Emitted w0 w consumed := by
  rcases h with ⟨_, hw⟩ | ⟨_, pre, rest, out, hc, hw, hbuf⟩
  · exact ⟨[], by simpa using hw, Or.inl rfl⟩
  · exact ⟨out, hw, Or.inr ⟨pre, rest, hc, v.bufferedData, hbuf⟩⟩

/-- One byte while the start sentinel is searched: the search goes on, or the
sentinel has just been matched at the end of the bytes read. -/
theorem startInv_step_or_match (v : ReadVars) (w : Writer) (done : Bytes) (b : Nat)
    (hv : StartInv v done) :
    ∃ v1, byteStep v w b = .next v1 w ∧
      (StartInv v1 (done ++ [b]) ∨
        (v1.currentState = .processingDataAndCheckingStopCode ∧ v1.bufferedData = [] ∧
          artifactsTarStartReadCode <:+ done ++ [b])) := by
  obtain ⟨st, c, buf⟩ := v
  obtain ⟨hbuf, hst⟩ := hv
  simp only at hbuf hst
  subst hbuf
  rcases hst with ⟨h1, h2⟩ | ⟨h1, h2, h3, h4⟩
  · subst h1 h2
    simp only [byteStep, startCode_head]
    by_cases hb : b = 49
    · rw [if_pos hb]
      refine ⟨_, rfl, Or.inl ⟨rfl, Or.inr ⟨rfl, by simp, by simp, ?_⟩⟩⟩
      subst hb
      exact ⟨done, rfl⟩
    · rw [if_neg hb]
      exact ⟨_, rfl, Or.inl ⟨rfl, Or.inl ⟨rfl, rfl⟩⟩⟩
  · subst h1
    have hlt : c < artifactsTarStartReadCode.length := by rw [startCode_length]; exact h3
    simp only [byteStep, List.getElem?_eq_getElem hlt, startCode_length]
    by_cases hb : b = artifactsTarStartReadCode[c]
    · have hsuf := take_succ_suffix artifactsTarStartReadCode done c hlt h4
      rw [← hb] at hsuf
      rw [if_pos hb]
      by_cases hc : 64 > c + 1
      · rw [if_pos hc]
        exact ⟨_, rfl, Or.inl ⟨rfl, Or.inr ⟨rfl, by simp, by simpa using hc, hsuf⟩⟩⟩
      · rw [if_neg hc]
        have h64 : c + 1 = artifactsTarStartReadCode.length := by
          rw [startCode_length]; omega
        rw [h64, List.take_length] at hsuf
        exact ⟨_, rfl, Or.inr ⟨rfl, rfl, hsuf⟩⟩
    · rw [if_neg hb]
      exact ⟨_, rfl, Or.inl ⟨rfl, Or.inl ⟨rfl, rfl⟩⟩⟩

theorem append_isPrefix (out q p : Bytes) (h : q <+: p) : out ++ q <+: out ++ p := by
  obtain ⟨t, ht⟩ := h
  exact ⟨t, by rw [← ht, List.append_assoc]⟩

/-- One byte keeps the phase invariant, and a return leaves the writer with a
first part of what follows the matched start sentinel. -/
theorem phaseInv_step (w0 : Bytes) (v : ReadVars) (w : Writer) (consumed : Bytes) (b : Nat)
    (h : PhaseInv w0 v w consumed) :
    match byteStep v w b with
    | .next v1 w1 => PhaseInv w0 v1 w1 (consumed ++ [b])
    | .ret _ w1 => Emitted w0 w1 (consumed ++ [b]) := by
  rcases h with ⟨hstart, hw⟩ | ⟨hst, pre, rest, out, hc, hw, hbuf⟩
  · obtain ⟨v1, h1, hv1⟩ := startInv_step_or_match v w consumed b hstart
    rw [h1]
    rcases hv1 with hv1 | ⟨hs1, hb1, ⟨t, ht⟩⟩
    · exact Or.inl ⟨hv1, hw⟩
    · exact Or.inr ⟨Or.inl hs1, t, [], [], by rw [← ht]; simp, by simpa using hw,
        by simpa using hb1⟩
  · have hc1 : consumed ++ [b] = pre ++ artifactsTarStartReadCode ++ (rest ++ [b]) := by
      rw [hc]; simp only [List.append_assoc]
    have hbuf1 : out ++ (v.bufferedData ++ [b]) = rest ++ [b] := by
      rw [← List.append_assoc, hbuf]
    have hemit : Emitted w0 w (consumed ++ [b]) :=
      ⟨out, hw, Or.inr ⟨pre, rest ++ [b], hc1, v.bufferedData ++ [b], hbuf1⟩⟩
    obtain ⟨st, c, buf⟩ := v
    simp only at hst hbuf hbuf1 hemit
    rcases hst with hst | hst
    · subst hst
      simp only [byteStep, stopCode_head]
      by_cases hb : b = 65
      · rw [if_pos hb]
        exact Or.inr ⟨Or.inr rfl, pre, rest ++ [b], out, hc1, hw, hbuf1⟩
      · rw [if_neg hb]
        obtain ⟨q, hq, hqp, hfull⟩ := write_spec w (buf ++ [b])
        cases hW : w.Write (buf ++ [b]) with
        | mk w1 ok =>
          rw [hW] at hq hfull
          simp only at hq hfull
          cases ok with
          | false =>
            refine ⟨out ++ q, by rw [hq, hw, List.append_assoc], Or.inr ⟨pre, rest ++ [b], hc1, ?_⟩⟩
            rw [← hbuf1]
            exact append_isPrefix out q _ hqp
          | true =>
            have hqe : q = buf ++ [b] := hfull rfl
            refine Or.inr ⟨Or.inl rfl, pre, rest ++ [b], out ++ (buf ++ [b]), hc1, ?_, ?_⟩
            · rw [hq, hw, hqe, List.append_assoc]
            · simpa using hbuf1
    · subst hst
      simp only [byteStep]
      cases hx : artifactsTarStopReadCode[c]? with
      | none => exact hemit
      | some x =>
        simp only
        by_cases hb : b = x
        · rw [if_pos hb]
          by_cases hlen : artifactsTarStopReadCode.length > c + 1
          · rw [if_pos hlen]
            exact Or.inr ⟨Or.inr rfl, pre, rest ++ [b], out, hc1, hw, hbuf1⟩
          · rw [if_neg hlen]
            exact hemit
        · rw [if_neg hb]
          exact Or.inr ⟨Or.inl rfl, pre, rest ++ [b], out, hc1, hw, hbuf1⟩

theorem phaseInv_loop (w0 : Bytes) (bytes : Bytes) (v : ReadVars) (w : Writer)
    (consumed : Bytes) (h : PhaseInv w0 v w consumed) :
    match byteLoop v w bytes with
    | .next v1 w1 => PhaseInv w0 v1 w1 (consumed ++ bytes)
    | .ret _ w1 => Emitted w0 w1 (consumed ++ bytes) := by
  induction bytes generalizing v w consumed with
  | nil => simpa [byteLoop] using h
  | cons b rest ih =>
    have hstep := phaseInv_step w0 v w consumed b h
    simp only [byteLoop]
    cases hs : byteStep v w b with
    | next v1 w1 =>
      rw [hs] at hstep
      have := ih v1 w1 (consumed ++ [b]) hstep
      simpa using this
    | ret e w1 =>
      rw [hs] at hstep
      have := emitted_mono w0 w1 (consumed ++ [b]) rest hstep
      simpa using this

theorem phaseInv_readLoop (w0 : Bytes) (body : List Decoded) (v : ReadVars) (w : Writer)
    (consumed : Bytes) (h : PhaseInv w0 v w consumed) :
    Emitted w0 (readLoop v w body).2 (consumed ++ streamBytes body) := by
  induction body generalizing v w consumed with
  | nil => simpa [readLoop, streamBytes] using phaseInv_emitted w0 v w consumed h
  | cons d rest ih =>
    cases d with
    | malformed err =>
      simpa [readLoop, streamBytes] using
        emitted_mono w0 w consumed (streamBytes rest) (phaseInv_emitted w0 v w consumed h)
    | message jm =>
      obtain ⟨stream, error⟩ := jm
      cases error with
      | some e =>
        simpa [readLoop, streamBytes] using
          emitted_mono w0 w consumed (stream ++ streamBytes rest)
            (phaseInv_emitted w0 v w consumed h)
      | none =>
        by_cases hs : stream = []
        · subst hs
          simpa [readLoop, streamBytes] using ih v w consumed h
        · have hloop := phaseInv_loop w0 stream v w consumed h
          simp only [readLoop, streamBytes, ne_eq, hs, not_false_eq_true, if_true]
          cases hb : byteLoop v w stream with
          | next v1 w1 =>
            rw [hb] at hloop
            have := ih v1 w1 (consumed ++ stream) hloop
            simpa using this
          | ret e w1 =>
            rw [hb] at hloop
            have := emitted_mono w0 w1 (consumed ++ stream) (streamBytes rest) hloop
            simpa using this

/-- C15: for every sequence of builder messages and every writer, whether the
extractor ends with `nil` or with an error, what it has written is a first part
of the `Stream` bytes that follow an occurrence of the start sentinel in the
concatenated `Stream` bytes, or nothing at all; it writes nothing when these
bytes contain no complete start sentinel. -/
theorem readTar_writes_after_start (body : List Decoded) (w : Writer) :
    ∃ out, (readTarFromImageBuildResponse body w).2.written = w.written ++ out ∧
      (out = [] ∨ ∃ pre rest,
        streamBytes body = pre ++ artifactsTarStartReadCode ++ rest ∧ out <+: rest) ∧
      (¬ artifactsTarStartReadCode <:+: streamBytes body → out = []) := by
  have h0 : PhaseInv w.written ReadVars.init w [] :=
    Or.inl ⟨⟨rfl, Or.inl ⟨rfl, rfl⟩⟩, rfl⟩
  obtain ⟨out, hw, hout⟩ := phaseInv_readLoop w.written body ReadVars.init w [] h0
  simp only [List.nil_append] at hout
  refine ⟨out, hw, hout, fun hno => ?_⟩
  rcases hout with h1 | ⟨pre, rest, hc, _⟩
  · exact h1
  · exact absurd ⟨pre, rest, hc.symm⟩ hno

end Trdl
